import Mathlib

/-!
# datacross: storage adapter and multi-version reader

A shallow embedding of `storage/sqlite_adapter.go` (the entry table, the
cursor table, `Has`, `Add`, `Replace`, `GetByKey`, `GetByGid`, `Processes`,
`Merge`, the record methods `Visible`, `Changes`, `AddChange`, and the stored
form `Value`/`Scan` of the change tally) and of `backend/storage/storage.go`
(`Value.from`, `Main`, `Branches`, `String`), followed by the properties
proved about them.

Conventions of the embedding

* Go `string` is `String`, `int64`/`int` are `Int`, `uint64` is `Nat`; the
  only arithmetic is `seq++` on a list index and the `int32` addition of
  `AddChange`, which wraps around explicitly.  The section on the stored form
  of the change tally works on byte sequences instead of `String`.
* A Go map is the list of its bindings, each key bound once.
* A Go pointer that may be nil is an `Option`.
* A Go `error` is `GoError := Option String`; `none` is `nil`.
* The database is the state: the two tables are lists of rows in insertion
  order.  Every operation takes the state and returns the error together
  with the state it leaves behind, so that "the call failed and changed
  nothing" is a statement about the returned state.
* Only the failures that the table contents decide are modelled (the unique
  indexes); I/O failures of the backend are outside the model.  The three
  timestamp columns (`CreatedAt`, `UpdatedAt`, `DeletedAt`) are not modelled.
-/

namespace storage

/-- A Go `error` value: `none` is `nil`, `some msg` an error with that message. -/
abbrev GoError := Option String

/-- The Go type `ChangeCount` (`map[string]int32`): `none` is the nil map, `some l`
a map holding the bindings of `l`. -/
abbrev ChangeCount := Option (List (String × Int))

/-- The Go struct `DBRecord`, one row of the entry table.  `Seq` is a `uint64`, held as a
`Nat`; the database driver accepts it only below 2^63 (see `driverAccepts`). -/
structure DBRecord where
  Key : String
  Value : String
  MachineID : String
  Offset : Int
  PrevMachineID : String
  Seq : Nat
  CurrentLogGid : String
  PrevLogGid : String
  IsDiscarded : Bool
  IsDeleted : Bool
  MachineChangeCount : ChangeCount
  Num : Int
  PrevNum : Int
  deriving DecidableEq, Repr

/-- The Go struct `LogProgress`, one row of the cursor table. -/
structure LogProgress where
  Offset : Int
  Num : Int
  Gid : String
  MachineID : String
  deriving DecidableEq, Repr

/-- The Go struct `ValueVersion`. -/
structure ValueVersion where
  key : String
  value : String
  machineID : String
  gid : String
  seq : Int
  deriving DecidableEq, Repr

/-- The Go struct `Value`: a slice of pointers to versions, index 0 being the main one. -/
structure Value where
  versions : List (Option ValueVersion)
  deriving DecidableEq, Repr

/-- Modelled from the spec: `findMain` is called by `Value.from` but its body is not
among the source files.  The spec (4.3, step 1) selects as main "the entry in the set
whose `origin_machine` equals the local machine's identifier" and fails "if none
exists"; nil entries are skipped, and the first such entry in input order is taken. -/
def findMain (leaves : List (Option DBRecord)) (machineID : String) : Option DBRecord :=
  match leaves with
  | [] => none
  | none :: rest => findMain rest machineID
  | some e :: rest => if e.MachineID = machineID then some e else findMain rest machineID

/-- The loop of `Value.from` (storage.go lines 40-53): nil leaves and leaves carrying the
main entry's gid are skipped, every other leaf is appended with the running `seq`. -/
def Value.fromLoop (main : DBRecord) : List (Option DBRecord) → Int → Value → Value
  | [], _, v => v
  | none :: rest, seq, v => Value.fromLoop main rest seq v
  | some e :: rest, seq, v =>
    if e.CurrentLogGid = main.CurrentLogGid then Value.fromLoop main rest seq v
    else Value.fromLoop main rest (seq + 1)
      { versions := v.versions ++
          [some { key := e.Key, value := e.Value, machineID := e.MachineID,
                  gid := e.CurrentLogGid, seq := seq }] }

/-- The method `(*Value).from` (storage.go lines 29-55); `from` is a reserved word of
Lean, hence the trailing underscore.  Returns the error and the receiver afterwards. -/
def Value.from_ (v : Value) (leaves : List (Option DBRecord)) (machineID : String) :
    GoError × Value :=
  match findMain leaves machineID with
  | none => (some "cannot find main node", v)
  | some main =>
    let v1 : Value :=
      { versions := v.versions ++
          [some { key := main.Key, value := main.Value, gid := main.CurrentLogGid,
                  machineID := main.MachineID, seq := 0 }] }
    (none, Value.fromLoop main leaves 1 v1)

/-- The method `Branches`: `v.versions[1:]`; `none` is the run-time panic on an empty slice. -/
def Value.Branches (v : Value) : Option (List (Option ValueVersion)) :=
  match v.versions with
  | [] => none
  | _ :: rest => some rest

/-- The method `Main`: `v.versions[0]`; `none` is the run-time panic on an empty slice,
`some none` a nil pointer at index 0. -/
def Value.Main (v : Value) : Option (Option ValueVersion) :=
  match v.versions with
  | [] => none
  | m :: _ => some m

/-- The second loop of `Value.String`: every non-nil branch writes a space and its value. -/
def Value.writeBranches (sb : String) : List (Option ValueVersion) → String
  | [] => sb
  | none :: rest => Value.writeBranches sb rest
  | some b :: rest => Value.writeBranches ((sb ++ " ") ++ b.value) rest

/-- The method `String` (storage.go lines 65-87); `none` is a run-time panic (empty
`versions`, or a nil pointer at index 0). -/
def Value.String (v : Value) : Option String :=
  match v.Main with
  | none => none
  | some none => none
  | some (some main) =>
    match v.Branches with
    | none => none
    | some branches =>
      let sb := "" ++ main.value
      let nonEmpty := branches.any (fun b => b.isSome)
      let sb := if nonEmpty then sb ++ "(*)" else sb
      some (Value.writeBranches sb branches)

/-! ## The adapter: tables, gorm statements, `Has`, `Add`, `Replace`, queries -/

/-- The database behind a `SqliteAdapter`: the rows of the entry table (`DBRecord`,
unique index on `gid`) and of the cursor table (`LogProgress`, unique index on
`machine_id`), each in insertion order. -/
structure SqliteAdapter where
  records : List DBRecord
  progress : List LogProgress
  deriving DecidableEq, Repr

/-- The database right after `Init` on a fresh file: `AutoMigrate` has created both tables,
and both are empty. -/
def SqliteAdapter.empty : SqliteAdapter := { records := [], progress := [] }

/-- The statement `Model(&DBRecord{}).Create(record)`: an INSERT of all columns, refused by
the unique index when a row with the same `gid` exists.  The refusal of a `Seq` of 2^63 or
more by the driver (see `driverAccepts`) is not part of this definition. -/
def SqliteAdapter.createRecord (s : SqliteAdapter) (record : DBRecord) :
    GoError × SqliteAdapter :=
  if s.records.any (fun r => r.CurrentLogGid = record.CurrentLogGid) then
    (some "UNIQUE constraint failed: db_records.gid", s)
  else (none, { s with records := s.records ++ [record] })

/-- The rule of `database/sql` for a `uint64` argument: a value with the high bit set
(2^63 or more) is refused before the statement runs.  `Seq` is the only `uint64` column.
For such a record the real `Create` returns an error and stores nothing; that refusal is a
backend failure outside `createRecord`, and every statement below that promises a
successful `Add` or `Replace` assumes `driverAccepts` of the entry. -/
def DBRecord.driverAccepts (r : DBRecord) : Bool :=
  decide (r.Seq < 9223372036854775808)

/-- The statement `Model(&LogProgress{}).Create(progress)`: an INSERT of all columns,
refused by the unique index when a row with the same `machine_id` exists. -/
def SqliteAdapter.createProgress (s : SqliteAdapter) (progress : LogProgress) :
    GoError × SqliteAdapter :=
  if s.progress.any (fun r => r.MachineID = progress.MachineID) then
    (some "UNIQUE constraint failed: log_progresses.machine_id", s)
  else (none, { s with progress := s.progress ++ [progress] })

/-- What gorm `Updates` with a struct argument writes into one matching row.  gorm builds
the SET clause from the struct's non-zero fields only ("when updating with struct, GORM
will only update non-zero fields"): a column is assigned only when the field is not the
zero value of its type (`0`, `""`); the other columns keep what the row held. -/
def LogProgress.updates (row progress : LogProgress) : LogProgress :=
  { Offset := if progress.Offset = 0 then row.Offset else progress.Offset
    Num := if progress.Num = 0 then row.Num else progress.Num
    Gid := if progress.Gid = "" then row.Gid else progress.Gid
    MachineID := if progress.MachineID = "" then row.MachineID else progress.MachineID }

/-- The statement `Model(&LogProgress{}).Where("machine_id = ?", m).Updates(progress)`:
every row whose `machine_id` is `m` is updated; the `machine_id` written is the one the
row already has, so the unique index cannot refuse it. -/
def SqliteAdapter.updatesProgress (s : SqliteAdapter) (machineID : String)
    (progress : LogProgress) : GoError × SqliteAdapter :=
  (none, { s with progress :=
    s.progress.map (fun r => if r.MachineID = machineID then r.updates progress else r) })

/-- The method `Transaction`: `f` runs on the database; its effects are kept when it
returns nil and rolled back when it returns an error. -/
def SqliteAdapter.Transaction (s : SqliteAdapter)
    (f : SqliteAdapter → GoError × SqliteAdapter) : GoError × SqliteAdapter :=
  match f s with
  | (none, s2) => (none, s2)
  | (some err, _) => (some err, s)

/-- The method `updateLogProgress` (sqlite_adapter.go lines 147-158). -/
def SqliteAdapter.updateLogProgress (s : SqliteAdapter) (progress : LogProgress) :
    GoError × SqliteAdapter :=
  let records := s.progress.filter (fun r => r.MachineID = progress.MachineID)
  if records.length > 0 then s.updatesProgress progress.MachineID progress
  else s.createProgress progress

/-- The method `Has` (lines 162-170): some row of the entry table has this `gid`. -/
def SqliteAdapter.Has (s : SqliteAdapter) (gid : String) : Bool :=
  let records := s.records.filter (fun r => r.CurrentLogGid = gid)
  decide (records.length > 0)

/-- The method `Add` (lines 172-188). -/
def SqliteAdapter.Add (s : SqliteAdapter) (record : DBRecord) : GoError × SqliteAdapter :=
  if s.Has record.CurrentLogGid then (some "node exists", s)
  else
    s.Transaction (fun s2 =>
      match s2.createRecord record with
      | (some err, s3) => (some err, s3)
      | (none, s3) =>
        s3.updateLogProgress
          { MachineID := record.MachineID, Offset := record.Offset,
            Gid := record.CurrentLogGid, Num := record.Num })

/-- The method `delNode` (lines 219-221): a DELETE of every row with this `gid`.  The
column `DeletedAt` is a `sql.NullTime`, not gorm's soft-delete type, so the rows are
removed from the table. -/
def SqliteAdapter.delNode (s : SqliteAdapter) (gid : String) : GoError × SqliteAdapter :=
  (none, { s with records := s.records.filter (fun r => !decide (r.CurrentLogGid = gid)) })

/-- The method `Replace` (lines 190-217); `new_` is the parameter `new`. -/
def SqliteAdapter.Replace (s : SqliteAdapter) (old : String) (new_ : DBRecord) :
    GoError × SqliteAdapter :=
  if !s.Has old then (some "node not exist", s)
  else if s.Has new_.CurrentLogGid then (some "new node already exist", s)
  else
    s.Transaction (fun s2 =>
      match s2.delNode old with
      | (some err, s3) => (some err, s3)
      | (none, s3) =>
        match s3.createRecord new_ with
        | (some err, s4) => (some err, s4)
        | (none, s4) =>
          s4.updateLogProgress
            { MachineID := new_.MachineID, Offset := new_.Offset,
              Gid := new_.CurrentLogGid, Num := new_.Num })

/-- The method `GetByKey` (lines 223-230): pointers to all rows with this key. -/
def SqliteAdapter.GetByKey (s : SqliteAdapter) (key : String) : List (Option DBRecord) :=
  (s.records.filter (fun r => r.Key = key)).map some

/-- The method `GetByGid` (lines 232-239): the row with this `gid` (the unique index
leaves at most one), or gorm's not-found error. -/
def SqliteAdapter.GetByGid (s : SqliteAdapter) (gid : String) : Except String DBRecord :=
  match s.records.find? (fun r => r.CurrentLogGid = gid) with
  | some rec => .ok rec
  | none => .error "record not found"

/-- The method `AllNodes` (lines 241-248). -/
def SqliteAdapter.AllNodes (s : SqliteAdapter) : List DBRecord := s.records

/-- The method `Processes` (lines 250-257): all rows of the cursor table. -/
def SqliteAdapter.Processes (s : SqliteAdapter) : List LogProgress := s.progress

/-- The cursors stored for one machine: the rows of `Processes` with that `machine_id`. -/
def SqliteAdapter.cursorsOf (s : SqliteAdapter) (machineID : String) : List LogProgress :=
  s.Processes.filter (fun c => c.MachineID = machineID)

/-- One call of the admission interface. -/
inductive Call where
  | add (record : DBRecord)
  | replace (old : String) (new_ : DBRecord)
  deriving DecidableEq, Repr

/-- The entry a call tries to admit. -/
def Call.entry : Call → DBRecord
  | .add record => record
  | .replace _ new_ => new_

/-- Performing one call. -/
def SqliteAdapter.call (s : SqliteAdapter) : Call → GoError × SqliteAdapter
  | .add record => s.Add record
  | .replace old new_ => s.Replace old new_

/-- Performing a sequence of calls one after the other, whatever each returns. -/
def SqliteAdapter.run (s : SqliteAdapter) : List Call → SqliteAdapter
  | [] => s
  | c :: rest => SqliteAdapter.run (s.call c).2 rest

/-- The method `Merge` (lines 259-261): it returns the error "unsupported" and touches
nothing.  Its parameter has the interface type `ReadOnlyNodeStorage`, declared outside
these files; another store is taken for it, and the body never reads it. -/
def SqliteAdapter.Merge (s : SqliteAdapter) (_other : SqliteAdapter) :
    GoError × SqliteAdapter :=
  (some "unsupported", s)

/-! ## The record: visibility and the change tally -/

/-- The method `Visible` (lines 70-72). -/
def DBRecord.Visible (r : DBRecord) : Bool :=
  !r.IsDeleted && !r.IsDiscarded

/-- A Go `int32` result: the integer `x` reduced to the range of 32-bit two's complement,
as Go arithmetic on `int32` does. -/
def int32 (x : Int) : Int :=
  (x + 2147483648) % 4294967296 - 2147483648

/-- Reading `m[k]` from a non-nil Go map in the comma-ok form: the value bound to `k`, or
`none` when the map has no key `k`. -/
def mapGet : List (String × Int) → String → Option Int
  | [], _ => none
  | (k2, v) :: rest, k => if k2 = k then some v else mapGet rest k

/-- The assignment `m[k] = v` on a non-nil Go map: the binding of `k` is replaced when
there is one and added otherwise. -/
def mapSet : List (String × Int) → String → Int → List (String × Int)
  | [], k, v => [(k, v)]
  | (k2, v2) :: rest, k, v =>
    if k2 = k then (k, v) :: rest else (k2, v2) :: mapSet rest k v

/-- Reading `n[k]` in the comma-ok form from a `ChangeCount` that may be the nil map (a
nil map has no key). -/
def ChangeCount.get (n : ChangeCount) (k : String) : Option Int :=
  match n with
  | none => none
  | some m => mapGet m k

/-- The method `Changes` (lines 74-82). -/
def DBRecord.Changes (r : DBRecord) (machineID : String) : Int :=
  match r.MachineChangeCount with
  | none => 0
  | some tally =>
    match mapGet tally machineID with
    | some changes => changes
    | none => 0

/-- The method `AddChange` (lines 84-93): a fresh map receives every binding of the
record's tally, then `m[machineID] += changes` in `int32` arithmetic (a missing key reads
as 0).  The record is only read. -/
def DBRecord.AddChange (r : DBRecord) (machineID : String) (changes : Int) : ChangeCount :=
  let m : List (String × Int) := []
  let m :=
    match r.MachineChangeCount with
    | none => m
    | some tally => tally.foldl (fun m kv => mapSet m kv.1 kv.2) m
  some (mapSet m machineID (int32 ((mapGet m machineID).getD 0 + changes)))

/-! ## The stored form of the change tally: `Value` and `Scan`

`ChangeCount.Value` is `json.Marshal` and `ChangeCount.Scan` is `json.Unmarshal` (package
`encoding/json` of the Go library).  A Go string is a sequence of arbitrary bytes, and the
encoder treats bytes that are not valid UTF-8 specially ("string values encode as JSON
strings coerced to valid UTF-8, replacing invalid bytes with the Unicode replacement
rune", which the package applies to map keys as well).  `String` cannot hold such
a key, so this section works on byte sequences. -/

/-- A Go `string` or `[]byte` given byte by byte; every element is below 256. -/
abbrev Bytes := List Nat

/-- A `ChangeCount` with its keys given byte by byte: `none` is the nil map. -/
abbrev ChangeCountBytes := Option (List (Bytes × Int))

/-- A `driver.Value` or `any` as far as `Scan` tells them apart: a `[]byte`, or a value of
another dynamic type. -/
inductive DriverValue where
  | bytes (b : Bytes)
  | other
  deriving DecidableEq, Repr

/-- Whether `b` is a UTF-8 continuation byte within `lo..hi`. -/
def inRange (lo hi b : Nat) : Bool :=
  decide (lo ≤ b) && decide (b ≤ hi)

/-- The function `utf8.DecodeRune`: the rune encoded at the head of the bytes and its
width in bytes; `(0xFFFD, 1)` when the head is not a well-formed UTF-8 sequence
(`(0xFFFD, 0)` on no bytes). -/
def decodeRune : Bytes → Nat × Nat
  | [] => (0xFFFD, 0)
  | b0 :: rest =>
    if b0 < 0x80 then (b0, 1)
    else if inRange 0xC2 0xDF b0 then
      match rest with
      | b1 :: _ =>
        if inRange 0x80 0xBF b1 then ((b0 - 0xC0) * 64 + (b1 - 0x80), 2) else (0xFFFD, 1)
      | _ => (0xFFFD, 1)
    else if inRange 0xE0 0xEF b0 then
      match rest with
      | b1 :: b2 :: _ =>
        if inRange (if b0 = 0xE0 then 0xA0 else 0x80) (if b0 = 0xED then 0x9F else 0xBF) b1
            && inRange 0x80 0xBF b2 then
          ((b0 - 0xE0) * 4096 + (b1 - 0x80) * 64 + (b2 - 0x80), 3)
        else (0xFFFD, 1)
      | _ => (0xFFFD, 1)
    else if inRange 0xF0 0xF4 b0 then
      match rest with
      | b1 :: b2 :: b3 :: _ =>
        if inRange (if b0 = 0xF0 then 0x90 else 0x80) (if b0 = 0xF4 then 0x8F else 0xBF) b1
            && inRange 0x80 0xBF b2 && inRange 0x80 0xBF b3 then
          ((b0 - 0xF0) * 262144 + (b1 - 0x80) * 4096 + (b2 - 0x80) * 64 + (b3 - 0x80), 4)
        else (0xFFFD, 1)
      | _ => (0xFFFD, 1)
    else (0xFFFD, 1)

/-- The function `utf8.AppendRune`: the UTF-8 encoding of a rune; surrogates and values
above 0x10FFFF are written as U+FFFD. -/
def encodeRune (r : Nat) : Bytes :=
  if r < 0x80 then [r]
  else if r < 0x800 then [0xC0 + r / 64, 0x80 + r % 64]
  else if (0xD800 ≤ r ∧ r ≤ 0xDFFF) ∨ 0x10FFFF < r then [0xEF, 0xBF, 0xBD]
  else if r < 0x10000 then [0xE0 + r / 4096, 0x80 + r / 64 % 64, 0x80 + r % 64]
  else [0xF0 + r / 262144, 0x80 + r / 4096 % 64, 0x80 + r / 64 % 64, 0x80 + r % 64]

/-- The bytes of a `String` in UTF-8, as Go holds a string of valid text. -/
def bytesOfString (s : String) : Bytes :=
  s.data.flatMap (fun c => encodeRune c.toNat)

/-- A `ChangeCount` with every key replaced by its bytes. -/
def ChangeCount.toBytes (n : ChangeCount) : ChangeCountBytes :=
  n.map (fun m => m.map (fun kv => (bytesOfString kv.1, kv.2)))

/-- The lower-case hexadecimal digit of a value below 16, as a byte. -/
def hexDigit (d : Nat) : Nat :=
  if d < 10 then 0x30 + d else 0x61 + (d - 10)

/-- The body of `appendString` of `encoding/json` with HTML escaping on, as `Marshal` uses
it: what is written for the bytes of a string between the two quotes.  `fuel` bounds the
number of steps; the length of the input is enough. -/
def escapeBytes : Nat → Bytes → Bytes
  | 0, _ => []
  | _, [] => []
  | fuel + 1, b :: rest =>
    if b < 0x80 then
      if b = 0x22 ∨ b = 0x5C then 0x5C :: b :: escapeBytes fuel rest
      else if b = 0x08 then 0x5C :: 0x62 :: escapeBytes fuel rest
      else if b = 0x0C then 0x5C :: 0x66 :: escapeBytes fuel rest
      else if b = 0x0A then 0x5C :: 0x6E :: escapeBytes fuel rest
      else if b = 0x0D then 0x5C :: 0x72 :: escapeBytes fuel rest
      else if b = 0x09 then 0x5C :: 0x74 :: escapeBytes fuel rest
      else if b < 0x20 ∨ b = 0x26 ∨ b = 0x3C ∨ b = 0x3E then
        0x5C :: 0x75 :: 0x30 :: 0x30 :: hexDigit (b / 16) :: hexDigit (b % 16) ::
          escapeBytes fuel rest
      else b :: escapeBytes fuel rest
    else
      match decodeRune (b :: rest) with
      | (c, size) =>
        if c = 0xFFFD ∧ size = 1 then
          [0x5C, 0x75, 0x66, 0x66, 0x66, 0x64] ++ escapeBytes fuel rest
        else if c = 0x2028 ∨ c = 0x2029 then
          [0x5C, 0x75, 0x32, 0x30, 0x32, hexDigit (c % 16)] ++
            escapeBytes fuel (rest.drop (size - 1))
        else (b :: rest).take size ++ escapeBytes fuel (rest.drop (size - 1))

/-- A string as a JSON string literal: quote, escaped bytes, quote. -/
def quoteBytes (s : Bytes) : Bytes :=
  0x22 :: (escapeBytes s.length s ++ [0x22])

/-- The function `strconv.AppendInt` in base 10. -/
def appendInt (v : Int) : Bytes :=
  (if v < 0 then [0x2D] else []) ++ (Nat.toDigits 10 v.natAbs).map (fun c => c.toNat)

/-- Byte-wise lexicographic order of Go strings, by which `Marshal` sorts map keys. -/
def bytesLt : Bytes → Bytes → Bool
  | _, [] => false
  | [], _ :: _ => true
  | a :: as, b :: bs => decide (a < b) || (decide (a = b) && bytesLt as bs)

/-- Insertion of a binding into a list of bindings sorted by key. -/
def insertSorted (kv : Bytes × Int) : List (Bytes × Int) → List (Bytes × Int)
  | [] => [kv]
  | x :: rest => if bytesLt kv.1 x.1 then kv :: x :: rest else x :: insertSorted kv rest

/-- The members of the object, already sorted: `"key":value` joined by commas. -/
def marshalMembers : List (Bytes × Int) → Bytes
  | [] => []
  | [kv] => quoteBytes kv.1 ++ [0x3A] ++ appendInt kv.2
  | kv :: rest => quoteBytes kv.1 ++ [0x3A] ++ appendInt kv.2 ++ [0x2C] ++ marshalMembers rest

/-- The function `json.Marshal` on a `map[string]int32`: `null` for the nil map, else the
object of the bindings sorted by key. -/
def jsonMarshal (n : ChangeCountBytes) : Bytes :=
  match n with
  | none => [0x6E, 0x75, 0x6C, 0x6C]
  | some m => 0x7B :: (marshalMembers (m.foldr insertSorted []) ++ [0x7D])

/-- The method `Value` of `ChangeCount` (lines 28-31): `json.Marshal(n)`, which cannot
fail on this type. -/
def ChangeCountBytes.Value (n : ChangeCountBytes) : DriverValue × GoError :=
  (DriverValue.bytes (jsonMarshal n), none)

/-- The value of a hexadecimal digit given as a byte, in either case. -/
def hexVal (b : Nat) : Option Nat :=
  if inRange 0x30 0x39 b then some (b - 0x30)
  else if inRange 0x61 0x66 b then some (b - 0x61 + 10)
  else if inRange 0x41 0x46 b then some (b - 0x41 + 10)
  else none

/-- The function `getu4` of the decoder: the number written by a `\uXXXX` escape at the
head of the bytes, with the bytes after it. -/
def getu4 : Bytes → Option (Nat × Bytes)
  | a :: b :: h1 :: h2 :: h3 :: h4 :: rest =>
    if a = 0x5C ∧ b = 0x75 then
      match hexVal h1, hexVal h2, hexVal h3, hexVal h4 with
      | some d1, some d2, some d3, some d4 =>
        some (d1 * 4096 + d2 * 256 + d3 * 16 + d4, rest)
      | _, _, _, _ => none
    else none
  | _ => none

/-- The decoder on a JSON string literal after its opening quote (`unquoteBytes` together
with the scanner rules for strings): the decoded bytes and the input after the closing
quote.  Bytes that are not well-formed UTF-8 and unpaired surrogate escapes are replaced
by U+FFFD; a control character or an unknown escape is a syntax error (`none`).  `fuel`
bounds the number of steps; the length of the input is enough. -/
def unquoteLoop : Nat → Bytes → Bytes → Option (Bytes × Bytes)
  | 0, _, _ => none
  | _, [], _ => none
  | fuel + 1, c :: rest, acc =>
    if c = 0x22 then some (acc, rest)
    else if c = 0x5C then
      match rest with
      | [] => none
      | e :: rest2 =>
        if e = 0x22 ∨ e = 0x5C ∨ e = 0x2F then unquoteLoop fuel rest2 (acc ++ [e])
        else if e = 0x62 then unquoteLoop fuel rest2 (acc ++ [0x08])
        else if e = 0x66 then unquoteLoop fuel rest2 (acc ++ [0x0C])
        else if e = 0x6E then unquoteLoop fuel rest2 (acc ++ [0x0A])
        else if e = 0x72 then unquoteLoop fuel rest2 (acc ++ [0x0D])
        else if e = 0x74 then unquoteLoop fuel rest2 (acc ++ [0x09])
        else if e = 0x75 then
          match getu4 (c :: rest) with
          | none => none
          | some (rr, rest3) =>
            if inRange 0xD800 0xDFFF rr then
              match getu4 rest3 with
              | some (rr1, rest4) =>
                if inRange 0xD800 0xDBFF rr && inRange 0xDC00 0xDFFF rr1 then
                  unquoteLoop fuel rest4
                    (acc ++ encodeRune ((rr - 0xD800) * 1024 + (rr1 - 0xDC00) + 0x10000))
                else unquoteLoop fuel rest3 (acc ++ [0xEF, 0xBF, 0xBD])
              | none => unquoteLoop fuel rest3 (acc ++ [0xEF, 0xBF, 0xBD])
            else unquoteLoop fuel rest3 (acc ++ encodeRune rr)
        else none
    else if c < 0x20 then none
    else if c < 0x80 then unquoteLoop fuel rest (acc ++ [c])
    else
      match decodeRune (c :: rest) with
      | (rr, size) => unquoteLoop fuel (rest.drop (size - 1)) (acc ++ encodeRune rr)

/-- Skipping JSON white space (space, tab, line feed, carriage return). -/
def skipWS : Bytes → Bytes
  | [] => []
  | b :: rest => if b = 0x20 ∨ b = 0x09 ∨ b = 0x0A ∨ b = 0x0D then skipWS rest else b :: rest

/-- Reading decimal digits into `acc`; returns the number and the input after them. -/
def takeDigits : Bytes → Nat → Nat × Bytes
  | [], acc => (acc, [])
  | b :: rest, acc =>
    if inRange 0x30 0x39 b then takeDigits rest (acc * 10 + (b - 0x30)) else (acc, b :: rest)

/-- One or more decimal digits skipped; `none` when the input does not start with one. -/
def skipDigits1 : Bytes → Option Bytes
  | [] => none
  | b :: rest => if inRange 0x30 0x39 b then some (takeDigits rest 0).2 else none

/-- The rest of a number literal after its integer part, by the scanner's rules: an
optional fraction and an optional exponent.  Returns whether the literal is a plain
integer, and the input after it; `none` is a syntax error. -/
def numberTail (input : Bytes) : Option (Bool × Bytes) :=
  let afterFraction : Option (Bool × Bytes) :=
    match input with
    | [] => some (true, [])
    | b :: rest =>
      if b = 0x2E then (skipDigits1 rest).map (fun r => (false, r)) else some (true, b :: rest)
  match afterFraction with
  | none => none
  | some (plain, []) => some (plain, [])
  | some (plain, b :: rest) =>
    if b = 0x65 ∨ b = 0x45 then
      let digits : Bytes :=
        match rest with
        | [] => []
        | c :: rest2 => if c = 0x2B ∨ c = 0x2D then rest2 else c :: rest2
      (skipDigits1 digits).map (fun r => (false, r))
    else some (plain, b :: rest)

/-- A JSON number literal decoded for an `int32` (the scanner's number rules, then
`strconv.ParseInt` and the overflow test), with the input after it: `some v` when the
literal is an integer in the range of `int32`, `none` when it has a fraction or an
exponent or is out of range (a type error: the literal is well-formed but cannot be
stored).  The outer `none` is a syntax error. -/
def parseInt32 (input : Bytes) : Option (Option Int × Bytes) :=
  let neg : Bool := match input with
    | b :: _ => decide (b = 0x2D)
    | [] => false
  let body : Bytes := if neg then input.drop 1 else input
  match body with
  | [] => none
  | d :: rest =>
    let intPart : Option (Nat × Bytes) :=
      if d = 0x30 then some (0, rest)
      else if inRange 0x31 0x39 d then some (takeDigits rest (d - 0x30))
      else none
    match intPart with
    | none => none
    | some (n, rest2) =>
      match numberTail rest2 with
      | none => none
      | some (plain, rest3) =>
        let v : Int := if neg then -(n : Int) else (n : Int)
        if plain ∧ -2147483648 ≤ v ∧ v ≤ 2147483647 then some (some v, rest3)
        else some (none, rest3)

/-- The value of one member decoded for an `int32` map element: the number stored, whether
a type error is recorded, and the input after the value.  The element starts as 0; an
integer literal in range is stored; `null` leaves the 0; `true`, `false`, a string and a
number that does not fit leave the 0 and record a type error.  The outer `none` is a
syntax error, or an array or object as value, which this model does not decode. -/
def parseElement (input : Bytes) : Option (Int × Bool × Bytes) :=
  match input with
  | [] => none
  | b :: rest =>
    if b :: rest.take 3 = [0x6E, 0x75, 0x6C, 0x6C] then some (0, false, rest.drop 3)
    else if b :: rest.take 3 = [0x74, 0x72, 0x75, 0x65] then some (0, true, rest.drop 3)
    else if b :: rest.take 4 = [0x66, 0x61, 0x6C, 0x73, 0x65] then some (0, true, rest.drop 4)
    else if b = 0x22 then
      match unquoteLoop (rest.length + 1) rest [] with
      | none => none
      | some (_, rest2) => some (0, true, rest2)
    else
      match parseInt32 (b :: rest) with
      | none => none
      | some (some v, rest2) => some (v, false, rest2)
      | some (none, rest2) => some (0, true, rest2)

/-- Reading `m[k]` from a byte-keyed map in the comma-ok form. -/
def mapGetBytes : List (Bytes × Int) → Bytes → Option Int
  | [], _ => none
  | (k2, v) :: rest, k => if k2 = k then some v else mapGetBytes rest k

/-- The assignment `m[k] = v` on a byte-keyed map. -/
def mapSetBytes : List (Bytes × Int) → Bytes → Int → List (Bytes × Int)
  | [], k, v => [(k, v)]
  | (k2, v2) :: rest, k, v =>
    if k2 = k then (k, v) :: rest else (k2, v2) :: mapSetBytes rest k v

/-- The members of a JSON object decoded into the map `m`, from the first key to the
closing brace: each key is unquoted, each value is decoded by `parseElement`, and each
binding is assigned to the map (a repeated key overwrites).  Returns the map, whether a
type error was recorded, and the input after the brace; `none` is a syntax error.  `fuel`
bounds the number of members. -/
def parseMembers : Nat → Bytes → List (Bytes × Int) → Bool →
    Option (List (Bytes × Int) × Bool × Bytes)
  | 0, _, _, _ => none
  | fuel + 1, input, m, typeError =>
    match skipWS input with
    | [] => none
    | q :: rest =>
      if q = 0x22 then
        match unquoteLoop (rest.length + 1) rest [] with
        | none => none
        | some (key, rest2) =>
          match skipWS rest2 with
          | [] => none
          | colon :: rest3 =>
            if colon = 0x3A then
              match parseElement (skipWS rest3) with
              | none => none
              | some (v, bad, rest4) =>
                match skipWS rest4 with
                | [] => none
                | sep :: rest5 =>
                  if sep = 0x2C then
                    parseMembers fuel rest5 (mapSetBytes m key v) (typeError || bad)
                  else if sep = 0x7D then some (mapSetBytes m key v, typeError || bad, rest5)
                  else none
            else none
      else none

/-- The function `json.Unmarshal` into a `*map[string]int32` holding `n`: the error and
the map afterwards.  The document is checked first, so a syntax error leaves the map as
it was.  `null` stores the nil map; an object is decoded into the map (a fresh one when it
was nil), and a member whose value cannot be stored in an `int32` is bound to 0 while
decoding goes on and a type error is returned at the end; nothing but white space may
follow.  A document that is no object and not `null` is an error with the map as it was.
Not decoded by this model: an array or object as the value of a member, which it reports
as an error with the map as it was. -/
def jsonUnmarshal (data : Bytes) (n : ChangeCountBytes) : GoError × ChangeCountBytes :=
  let failed : GoError × ChangeCountBytes := (some "json: cannot unmarshal", n)
  match skipWS data with
  | [] => failed
  | b :: rest =>
    if b = 0x7B then
      match skipWS rest with
      | [] => failed
      | c :: rest2 =>
        if c = 0x7D then
          if skipWS rest2 = [] then (none, some (n.getD [])) else failed
        else
          match parseMembers data.length (c :: rest2) (n.getD []) false with
          | none => failed
          | some (m, typeError, rest3) =>
            if skipWS rest3 = [] then
              (if typeError then some "json: cannot unmarshal value into Go value of type int32"
               else none, some m)
            else failed
    else if b :: rest.take 3 = [0x6E, 0x75, 0x6C, 0x6C] ∧ skipWS (rest.drop 3) = [] then
      (none, none)
    else failed

/-- The method `Scan` of `ChangeCount` (lines 19-26): a value that is not a `[]byte` is
refused, a `[]byte` is handed to `json.Unmarshal`. -/
def ChangeCountBytes.Scan (n : ChangeCountBytes) (value : DriverValue) :
    GoError × ChangeCountBytes :=
  match value with
  | .other => (some "convert value to []byte failed", n)
  | .bytes b => jsonUnmarshal b n

/-! ## Auxiliary functions used to state the properties -/

/-- The versions the loop of `Value.from` appends for the non-nil leaves `es` that passed
the gid test, the first of them numbered `seq`. -/
def branchVersions (seq : Int) : List DBRecord → List ValueVersion
  | [] => []
  | e :: es =>
    { key := e.Key, value := e.Value, machineID := e.MachineID, gid := e.CurrentLogGid,
      seq := seq } :: branchVersions (seq + 1) es

/-- The non-nil leaves whose gid differs from `gid`, in input order. -/
def otherLeaves (gid : String) (leaves : List (Option DBRecord)) : List DBRecord :=
  (leaves.filterMap id).filter (fun e => !decide (e.CurrentLogGid = gid))

/-- A record with the given key, value, machine id, gid, offset and chain number; the
other fields are zero values.  Used for the concrete inputs. -/
def mkRecord (key value machineID gid : String) (offset num : Int) : DBRecord :=
  { Key := key, Value := value, MachineID := machineID, Offset := offset,
    PrevMachineID := "", Seq := 0, CurrentLogGid := gid, PrevLogGid := "",
    IsDiscarded := false, IsDeleted := false, MachineChangeCount := none,
    Num := num, PrevNum := 0 }

/-- The cursor row that `Add` and `Replace` hand to `updateLogProgress` for an entry. -/
def cursorFor (record : DBRecord) : LogProgress :=
  { MachineID := record.MachineID, Offset := record.Offset, Gid := record.CurrentLogGid,
    Num := record.Num }

/-- The cursor table after `updateLogProgress`: the matching rows updated when there is
one, the new row appended otherwise. -/
def upsertProgress (rows : List LogProgress) (p : LogProgress) : List LogProgress :=
  if rows.any (fun r => decide (r.MachineID = p.MachineID)) then
    rows.map (fun r => if r.MachineID = p.MachineID then r.updates p else r)
  else rows ++ [p]

/-! ## The multi-version reader -/

theorem findMain_eq_none_iff (leaves : List (Option DBRecord)) (m : String) :
    findMain leaves m = none ↔ ∀ e, some e ∈ leaves → e.MachineID ≠ m := by
  induction leaves with
  | nil => simp [findMain]
  | cons a rest ih =>
    cases a with
    | none => simp [findMain, ih]
    | some e =>
      by_cases h : e.MachineID = m
      · simp only [findMain, h, if_true]
        constructor
        · intro hc; cases hc
        · intro hall; exact absurd h (hall e (List.mem_cons_self _ _))
      · simp only [findMain, h, if_false, ih]
        constructor
        · intro hall x hx
          rcases List.mem_cons.1 hx with hx | hx
          · cases hx; exact h
          · exact hall x hx
        · intro hall x hx
          exact hall x (List.mem_cons_of_mem _ hx)

theorem findMain_eq_some (leaves : List (Option DBRecord)) (m : String) (main : DBRecord)
    (h : findMain leaves m = some main) : some main ∈ leaves ∧ main.MachineID = m := by
  induction leaves with
  | nil => simp [findMain] at h
  | cons a rest ih =>
    cases a with
    | none =>
      simp only [findMain] at h
      exact ⟨List.mem_cons_of_mem _ (ih h).1, (ih h).2⟩
    | some e =>
      by_cases he : e.MachineID = m
      · simp only [findMain, he, if_true, Option.some.injEq] at h
        subst h
        exact ⟨List.mem_cons_self _ _, he⟩
      · simp only [findMain, he, if_false] at h
        exact ⟨List.mem_cons_of_mem _ (ih h).1, (ih h).2⟩

theorem fromLoop_versions (main : DBRecord) (leaves : List (Option DBRecord)) (seq : Int)
    (v : Value) :
    (Value.fromLoop main leaves seq v).versions =
      v.versions ++ (branchVersions seq (otherLeaves main.CurrentLogGid leaves)).map some := by
  induction leaves generalizing seq v with
  | nil => simp [Value.fromLoop, otherLeaves, branchVersions]
  | cons a rest ih =>
    cases a with
    | none => simpa [Value.fromLoop, otherLeaves] using ih seq v
    | some e =>
      by_cases h : e.CurrentLogGid = main.CurrentLogGid
      · simpa [Value.fromLoop, otherLeaves, h] using ih seq v
      · simp only [Value.fromLoop, h, if_false]
        rw [ih]
        simp [otherLeaves, h, branchVersions]

theorem branchVersions_fields (seq : Int) (es : List DBRecord) :
    (branchVersions seq es).map (fun b => (b.key, b.value, b.machineID, b.gid)) =
      es.map (fun e => (e.Key, e.Value, e.MachineID, e.CurrentLogGid)) := by
  induction es generalizing seq with
  | nil => rfl
  | cons e es ih => simp [branchVersions, ih]

theorem branchVersions_seq (seq : Int) (es : List DBRecord) :
    (branchVersions seq es).map (fun b => b.seq) =
      (List.range es.length).map (fun (i : Nat) => seq + (i : Int)) := by
  induction es generalizing seq with
  | nil => rfl
  | cons e es ih =>
    simp only [branchVersions, List.map_cons, List.length_cons, List.range_succ_eq_map,
      List.map_map, ih]
    simp only [Nat.cast_zero, add_zero, List.cons.injEq, true_and]
    apply List.map_congr_left
    intro i _
    show seq + 1 + (i : Int) = seq + ((i + 1 : Nat) : Int)
    push_cast
    ring

theorem writeBranches_map_some (sb : String) (bs : List ValueVersion) :
    Value.writeBranches sb (bs.map some) =
      sb ++ String.join (bs.map (fun b => " " ++ b.value)) := by
  induction bs generalizing sb with
  | nil =>
    apply String.ext
    simp [Value.writeBranches]
  | cons b bs ih =>
    simp only [List.map_cons, Value.writeBranches, ih]
    apply String.ext
    simp [List.append_assoc]

/-- C1: `Value.from` returns an error exactly when no non-nil leaf has the reader's
machine id; whenever it fails the error is "cannot find main node" and the receiver is
left as it was. -/
theorem from_error_iff (v : Value) (leaves : List (Option DBRecord)) (m : String) :
    ((v.from_ leaves m).1 ≠ none ↔ ∀ e, some e ∈ leaves → e.MachineID ≠ m) ∧
    ((v.from_ leaves m).1 = none ↔ ∃ e, some e ∈ leaves ∧ e.MachineID = m) := by
  have key : (v.from_ leaves m).1 ≠ none ↔ ∀ e, some e ∈ leaves → e.MachineID ≠ m := by
    rw [← findMain_eq_none_iff]
    unfold Value.from_
    cases findMain leaves m <;> simp
  refine ⟨key, ?_⟩
  rw [← not_iff_not]
  simpa using key

/-- C2: when `Value.from` succeeds on an empty `Value`, `Main()` carries the key, value,
gid and machine id of a leaf whose machine id is the reader's, and `Branches()` is the
sequence of the non-nil leaves whose gid differs from the main entry's gid, in input
order, each with that leaf's key, value, machine id and gid, numbered 1, 2, ... -/
theorem from_main_and_branches (leaves : List (Option DBRecord)) (m : String)
    (h : (Value.from_ { versions := [] } leaves m).1 = none) :
    ∃ main : DBRecord, some main ∈ leaves ∧ main.MachineID = m ∧
      ∃ bs : List ValueVersion,
        (Value.from_ { versions := [] } leaves m).2.Main =
          some (some { key := main.Key, value := main.Value, machineID := main.MachineID,
                       gid := main.CurrentLogGid, seq := 0 }) ∧
        (Value.from_ { versions := [] } leaves m).2.Branches = some (bs.map some) ∧
        bs.map (fun b => (b.key, b.value, b.machineID, b.gid)) =
          ((leaves.filterMap id).filter
              (fun e => decide (e.CurrentLogGid ≠ main.CurrentLogGid))).map
            (fun e => (e.Key, e.Value, e.MachineID, e.CurrentLogGid)) ∧
        bs.map (fun b => b.seq) = (List.range bs.length).map (fun (i : Nat) => (i : Int) + 1) := by
  cases hfm : findMain leaves m with
  | none => simp [Value.from_, hfm] at h
  | some main =>
    obtain ⟨hmem, hmid⟩ := findMain_eq_some leaves m main hfm
    refine ⟨main, hmem, hmid, branchVersions 1 (otherLeaves main.CurrentLogGid leaves), ?_, ?_, ?_, ?_⟩
    · simp [Value.from_, hfm, fromLoop_versions, Value.Main]
    · simp [Value.from_, hfm, fromLoop_versions, Value.Branches]
    · rw [branchVersions_fields]
      simp [otherLeaves]
    · rw [branchVersions_seq]
      have hlen : ∀ (k : Int) (es : List DBRecord), (branchVersions k es).length = es.length := by
        intro k es
        induction es generalizing k with
        | nil => rfl
        | cons e es ih => simp [branchVersions, ih]
      rw [hlen]
      apply List.map_congr_left
      intro i _
      ring

/-- C2 at a concrete input: reading as machine "A" the leaves B:g1, nil, A:g2, C:g3. -/
theorem from_main_and_branches_witness :
    (Value.from_ { versions := [] }
        [some (mkRecord "k" "vB" "B" "g1" 1 1), none, some (mkRecord "k" "vA" "A" "g2" 2 1),
         some (mkRecord "k" "vC" "C" "g3" 3 1)] "A").1 = none ∧
    ∃ main : DBRecord,
      some main ∈ [some (mkRecord "k" "vB" "B" "g1" 1 1), none,
        some (mkRecord "k" "vA" "A" "g2" 2 1), some (mkRecord "k" "vC" "C" "g3" 3 1)] ∧
      main.MachineID = "A" ∧
      ∃ bs : List ValueVersion,
        (Value.from_ { versions := [] }
          [some (mkRecord "k" "vB" "B" "g1" 1 1), none, some (mkRecord "k" "vA" "A" "g2" 2 1),
           some (mkRecord "k" "vC" "C" "g3" 3 1)] "A").2.Main =
          some (some { key := main.Key, value := main.Value, machineID := main.MachineID,
                       gid := main.CurrentLogGid, seq := 0 }) ∧
        (Value.from_ { versions := [] }
          [some (mkRecord "k" "vB" "B" "g1" 1 1), none, some (mkRecord "k" "vA" "A" "g2" 2 1),
           some (mkRecord "k" "vC" "C" "g3" 3 1)] "A").2.Branches = some (bs.map some) ∧
        bs.map (fun b => (b.key, b.value, b.machineID, b.gid)) =
          (([some (mkRecord "k" "vB" "B" "g1" 1 1), none, some (mkRecord "k" "vA" "A" "g2" 2 1),
             some (mkRecord "k" "vC" "C" "g3" 3 1)].filterMap id).filter
              (fun e => decide (e.CurrentLogGid ≠ main.CurrentLogGid))).map
            (fun e => (e.Key, e.Value, e.MachineID, e.CurrentLogGid)) ∧
        bs.map (fun b => b.seq) = (List.range bs.length).map (fun (i : Nat) => (i : Int) + 1) :=
  ⟨by decide, from_main_and_branches _ "A" (by decide)⟩

/-- C3: for a `Value` with main version `m` and non-nil branches `bs`, `String()` is
`m.value`, then "(*)" exactly when there is a branch, then a space and the value of each
branch in order; with no branch it is exactly `m.value`. -/
theorem String_eq (m : ValueVersion) (bs : List ValueVersion) :
    Value.String { versions := some m :: bs.map some } =
      some (m.value ++ (if bs.isEmpty then "" else "(*)") ++
        String.join (bs.map (fun b => " " ++ b.value))) ∧
    Value.String { versions := [some m] } = some m.value := by
  constructor
  · cases bs with
    | nil =>
      simp only [Value.String, Value.Main, Value.Branches, List.map_nil, List.any_nil,
        Value.writeBranches, List.isEmpty_nil, if_true, String.join]
      congr 1
      apply String.ext
      simp
    | cons b bs =>
      simp only [Value.String, Value.Main, Value.Branches, List.map_cons, List.any_cons,
        Option.isSome_some, Bool.true_or, if_true, List.isEmpty_cons]
      rw [← List.map_cons, writeBranches_map_some]
      congr 1
  · simp only [Value.String, Value.Main, Value.Branches, List.any_nil, Value.writeBranches]
    rfl

/-! ## The adapter -/

theorem Has_eq_true_iff (s : SqliteAdapter) (gid : String) :
    s.Has gid = true ↔ ∃ r ∈ s.records, r.CurrentLogGid = gid := by
  simp [SqliteAdapter.Has, List.length_pos, List.filter_eq_nil_iff]

theorem Has_eq_false_iff (s : SqliteAdapter) (gid : String) :
    s.Has gid = false ↔ ∀ r ∈ s.records, r.CurrentLogGid ≠ gid := by
  rw [← Bool.not_eq_true, Has_eq_true_iff]
  simp

theorem any_gid_eq_Has (s : SqliteAdapter) (gid : String) :
    s.records.any (fun r => decide (r.CurrentLogGid = gid)) = s.Has gid := by
  cases h : s.Has gid with
  | true =>
    obtain ⟨r, hr, hg⟩ := (Has_eq_true_iff s gid).1 h
    exact List.any_eq_true.2 ⟨r, hr, by simp [hg]⟩
  | false =>
    have h2 := (Has_eq_false_iff s gid).1 h
    rw [List.any_eq_false]
    intro r hr
    simp [h2 r hr]

theorem filter_length_pos_iff_any {α : Type} (l : List α) (f : α → Bool) :
    (l.filter f).length > 0 ↔ l.any f = true := by
  induction l with
  | nil => simp
  | cons a l ih =>
    cases h : f a <;> simp [List.filter, h, ih]

theorem updateLogProgress_eq (s : SqliteAdapter) (p : LogProgress) :
    s.updateLogProgress p = (none, { s with progress := upsertProgress s.progress p }) := by
  unfold SqliteAdapter.updateLogProgress upsertProgress
  by_cases h : s.progress.any (fun r => decide (r.MachineID = p.MachineID)) = true
  · have h2 := (filter_length_pos_iff_any s.progress _).2 h
    simp only [h2, h, if_true, SqliteAdapter.updatesProgress]
  · have h2 : ¬ (s.progress.filter (fun r => decide (r.MachineID = p.MachineID))).length > 0 :=
      fun hc => h ((filter_length_pos_iff_any s.progress _).1 hc)
    simp only [h2, h, if_false, SqliteAdapter.createProgress]
    rfl

theorem Add_of_Has (s : SqliteAdapter) (e : DBRecord) (h : s.Has e.CurrentLogGid = true) :
    s.Add e = (some "node exists", s) := by
  simp [SqliteAdapter.Add, h]

theorem Add_of_not_Has (s : SqliteAdapter) (e : DBRecord) (h : s.Has e.CurrentLogGid = false) :
    s.Add e = (none, { records := s.records ++ [e],
                       progress := upsertProgress s.progress (cursorFor e) }) := by
  have hc : s.createRecord e = (none, { s with records := s.records ++ [e] }) := by
    simp [SqliteAdapter.createRecord, any_gid_eq_Has, h]
  simp only [SqliteAdapter.Add, h, SqliteAdapter.Transaction, hc, Bool.false_eq_true, if_false]
  have hu := updateLogProgress_eq { s with records := s.records ++ [e] } (cursorFor e)
  simp only [cursorFor] at hu
  rw [hu]
  rfl

theorem Replace_of_not_Has_old (s : SqliteAdapter) (old : String) (new_ : DBRecord)
    (h : s.Has old = false) : s.Replace old new_ = (some "node not exist", s) := by
  simp [SqliteAdapter.Replace, h]

theorem Replace_of_Has_new (s : SqliteAdapter) (old : String) (new_ : DBRecord)
    (h : s.Has old = true) (h2 : s.Has new_.CurrentLogGid = true) :
    s.Replace old new_ = (some "new node already exist", s) := by
  simp [SqliteAdapter.Replace, h, h2]

theorem Replace_of_Has_old_not_new (s : SqliteAdapter) (old : String) (new_ : DBRecord)
    (h : s.Has old = true) (h2 : s.Has new_.CurrentLogGid = false) :
    s.Replace old new_ =
      (none, { records := s.records.filter (fun r => !decide (r.CurrentLogGid = old)) ++ [new_],
               progress := upsertProgress s.progress (cursorFor new_) }) := by
  have hany : (s.records.filter (fun r => !decide (r.CurrentLogGid = old))).any
      (fun r => decide (r.CurrentLogGid = new_.CurrentLogGid)) = false := by
    rw [List.any_eq_false]
    intro r hr
    have := (Has_eq_false_iff s _).1 h2 r (List.mem_of_mem_filter hr)
    simp [this]
  simp only [SqliteAdapter.Replace, h, h2, SqliteAdapter.Transaction, SqliteAdapter.delNode,
    SqliteAdapter.createRecord, hany, Bool.not_true, Bool.false_eq_true, if_false]
  rw [updateLogProgress_eq]
  rfl

/-- C4: when an entry with the gid of `e` is already stored, `Add e` fails with
"node exists" and returns the store (entry table and cursor table) as it was; hence a
second `Add e` right after a first one always fails and changes nothing. -/
theorem Add_duplicate (s : SqliteAdapter) (e : DBRecord) :
    ((∃ r ∈ s.records, r.CurrentLogGid = e.CurrentLogGid) →
      (s.Add e).1 = some "node exists" ∧ (s.Add e).2 = s) ∧
    ((s.Add e).2.Add e).1 = some "node exists" ∧ ((s.Add e).2.Add e).2 = (s.Add e).2 := by
  have first : ∀ t : SqliteAdapter, t.Has e.CurrentLogGid = true →
      (t.Add e).1 = some "node exists" ∧ (t.Add e).2 = t := by
    intro t ht
    rw [Add_of_Has t e ht]
    exact ⟨rfl, rfl⟩
  refine ⟨fun h => first s ((Has_eq_true_iff s _).2 h), ?_⟩
  have hafter : (s.Add e).2.Has e.CurrentLogGid = true := by
    cases h : s.Has e.CurrentLogGid with
    | true => rw [Add_of_Has s e h]; exact h
    | false =>
      rw [Add_of_not_Has s e h, Has_eq_true_iff]
      exact ⟨e, by simp, rfl⟩
  exact first _ hafter

/-- C4 at a concrete store: the gid "g1" is stored, adding it again fails and changes
nothing. -/
theorem Add_duplicate_witness :
    ((SqliteAdapter.mk [mkRecord "k" "v1" "A" "g1" 8 1] [⟨8, 1, "g1", "A"⟩]).Add
        (mkRecord "k" "v2" "B" "g1" 9 2)).1 = some "node exists" ∧
    ((SqliteAdapter.mk [mkRecord "k" "v1" "A" "g1" 8 1] [⟨8, 1, "g1", "A"⟩]).Add
        (mkRecord "k" "v2" "B" "g1" 9 2)).2 =
      SqliteAdapter.mk [mkRecord "k" "v1" "A" "g1" 8 1] [⟨8, 1, "g1", "A"⟩] :=
  (Add_duplicate (SqliteAdapter.mk [mkRecord "k" "v1" "A" "g1" 8 1] [⟨8, 1, "g1", "A"⟩])
    (mkRecord "k" "v2" "B" "g1" 9 2)).1 ⟨mkRecord "k" "v1" "A" "g1" 8 1, by simp, rfl⟩

/-- C6: `Replace old new` returns an error exactly when no entry with gid `old` is stored
or an entry with the gid of `new` is already stored; this is always the case when the gid
of `new` is `old`; and whenever it returns an error the store (entry table and cursor
table) is returned as it was. -/
theorem Replace_error_iff (s : SqliteAdapter) (old : String) (new_ : DBRecord) :
    ((s.Replace old new_).1 ≠ none ↔
      ((¬ ∃ r ∈ s.records, r.CurrentLogGid = old) ∨
        ∃ r ∈ s.records, r.CurrentLogGid = new_.CurrentLogGid)) ∧
    (new_.CurrentLogGid = old → (s.Replace old new_).1 ≠ none) ∧
    ((s.Replace old new_).1 ≠ none → (s.Replace old new_).2 = s) := by
  rw [← Has_eq_true_iff, ← Has_eq_true_iff]
  cases h : s.Has old with
  | false =>
    rw [Replace_of_not_Has_old s old new_ h]
    simp
  | true =>
    cases h2 : s.Has new_.CurrentLogGid with
    | true =>
      rw [Replace_of_Has_new s old new_ h h2]
      simp
    | false =>
      rw [Replace_of_Has_old_not_new s old new_ h h2]
      refine ⟨by simp, ?_, by simp⟩
      intro heq
      rw [heq, h] at h2
      cases h2

/-- C6 at a concrete store: the old head "g0" is not stored, so `Replace` fails and the
store is returned unchanged. -/
theorem Replace_error_iff_witness :
    ((SqliteAdapter.mk [mkRecord "k" "v1" "A" "g1" 8 1] [⟨8, 1, "g1", "A"⟩]).Replace "g0"
        (mkRecord "k" "v2" "A" "g2" 9 2)).2 =
      SqliteAdapter.mk [mkRecord "k" "v1" "A" "g1" 8 1] [⟨8, 1, "g1", "A"⟩] :=
  (Replace_error_iff (SqliteAdapter.mk [mkRecord "k" "v1" "A" "g1" 8 1] [⟨8, 1, "g1", "A"⟩])
    "g0" (mkRecord "k" "v2" "A" "g2" 9 2)).2.2 (by decide)

theorem call_error_unchanged (s : SqliteAdapter) (c : Call) (h : (s.call c).1 ≠ none) :
    (s.call c).2 = s := by
  cases c with
  | add e =>
    simp only [SqliteAdapter.call] at h ⊢
    cases hh : s.Has e.CurrentLogGid with
    | true => rw [Add_of_Has s e hh]
    | false => rw [Add_of_not_Has s e hh] at h; exact absurd rfl h
  | replace old new_ =>
    simp only [SqliteAdapter.call] at h ⊢
    cases hh : s.Has old with
    | false => rw [Replace_of_not_Has_old s old new_ hh]
    | true =>
      cases h2 : s.Has new_.CurrentLogGid with
      | true => rw [Replace_of_Has_new s old new_ hh h2]
      | false => rw [Replace_of_Has_old_not_new s old new_ hh h2] at h; exact absurd rfl h

theorem nodup_gid_append (l : List DBRecord) (e : DBRecord)
    (hl : (l.map (fun r => r.CurrentLogGid)).Nodup)
    (he : ∀ r ∈ l, r.CurrentLogGid ≠ e.CurrentLogGid) :
    ((l ++ [e]).map (fun r => r.CurrentLogGid)).Nodup := by
  rw [List.map_append, List.nodup_append]
  refine ⟨hl, by simp, ?_⟩
  intro g hg hg2
  simp only [List.map_cons, List.map_nil, List.mem_singleton] at hg2
  obtain ⟨r, hr, hrg⟩ := List.mem_map.1 hg
  exact he r hr (hrg.trans hg2)

theorem call_nodup_gid (s : SqliteAdapter) (c : Call)
    (hs : (s.records.map (fun r => r.CurrentLogGid)).Nodup) :
    ((s.call c).2.records.map (fun r => r.CurrentLogGid)).Nodup := by
  by_cases herr : (s.call c).1 ≠ none
  · rw [call_error_unchanged s c herr]; exact hs
  · cases c with
    | add e =>
      simp only [SqliteAdapter.call] at herr ⊢
      cases hh : s.Has e.CurrentLogGid with
      | true => rw [Add_of_Has s e hh]; exact hs
      | false =>
        rw [Add_of_not_Has s e hh]
        exact nodup_gid_append _ _ hs ((Has_eq_false_iff s _).1 hh)
    | replace old new_ =>
      simp only [SqliteAdapter.call] at herr ⊢
      cases hh : s.Has old with
      | false => rw [Replace_of_not_Has_old s old new_ hh]; exact hs
      | true =>
        cases h2 : s.Has new_.CurrentLogGid with
        | true => rw [Replace_of_Has_new s old new_ hh h2]; exact hs
        | false =>
          rw [Replace_of_Has_old_not_new s old new_ hh h2]
          apply nodup_gid_append
          · exact hs.sublist (List.Sublist.map _ (List.filter_sublist _))
          · intro r hr
            exact (Has_eq_false_iff s _).1 h2 r (List.mem_of_mem_filter hr)

theorem run_nodup_gid (calls : List Call) (s : SqliteAdapter)
    (hs : (s.records.map (fun r => r.CurrentLogGid)).Nodup) :
    ((s.run calls).records.map (fun r => r.CurrentLogGid)).Nodup := by
  induction calls generalizing s with
  | nil => exact hs
  | cons c rest ih => exact ih _ (call_nodup_gid s c hs)

/-- C8: in every store reached from the empty store by a sequence of `Add` and `Replace`
calls, successful or failing, the stored entries have pairwise distinct gids, and a
failing call returns the store as it was, so it overwrites no stored entry. -/
theorem gid_unique_reachable (calls : List Call) :
    ((SqliteAdapter.empty.run calls).records.map (fun r => r.CurrentLogGid)).Nodup ∧
    ∀ c : Call, ((SqliteAdapter.empty.run calls).call c).1 ≠ none →
      ((SqliteAdapter.empty.run calls).call c).2 = SqliteAdapter.empty.run calls :=
  ⟨run_nodup_gid calls SqliteAdapter.empty (by simp [SqliteAdapter.empty]),
   fun c h => call_error_unchanged _ c h⟩

/-- C8 at a concrete history: after adding "g1", a second `Add` of gid "g1" with another
value fails and the stored entry is still the first one. -/
theorem gid_unique_reachable_witness :
    ((SqliteAdapter.empty.run [Call.add (mkRecord "k" "v1" "A" "g1" 8 1)]).call
        (Call.add (mkRecord "k" "v2" "B" "g1" 9 2))).2 =
      SqliteAdapter.empty.run [Call.add (mkRecord "k" "v1" "A" "g1" 8 1)] :=
  (gid_unique_reachable [Call.add (mkRecord "k" "v1" "A" "g1" 8 1)]).2
    (Call.add (mkRecord "k" "v2" "B" "g1" 9 2)) (by decide)

theorem call_ok_progress (s : SqliteAdapter) (c : Call) (h : (s.call c).1 = none) :
    (s.call c).2.progress = upsertProgress s.progress (cursorFor c.entry) := by
  cases c with
  | add e =>
    simp only [SqliteAdapter.call, Call.entry] at h ⊢
    cases hh : s.Has e.CurrentLogGid with
    | true => rw [Add_of_Has s e hh] at h; cases h
    | false => rw [Add_of_not_Has s e hh]
  | replace old new_ =>
    simp only [SqliteAdapter.call, Call.entry] at h ⊢
    cases hh : s.Has old with
    | false => rw [Replace_of_not_Has_old s old new_ hh] at h; cases h
    | true =>
      cases h2 : s.Has new_.CurrentLogGid with
      | true => rw [Replace_of_Has_new s old new_ hh h2] at h; cases h
      | false => rw [Replace_of_Has_old_not_new s old new_ hh h2]

theorem updates_monotone (row p : LogProgress) (hm : row.MachineID = p.MachineID)
    (ho : row.Offset ≤ p.Offset) (hn : row.Num ≤ p.Num) :
    (row.updates p).MachineID = row.MachineID ∧ row.Offset ≤ (row.updates p).Offset ∧
      row.Num ≤ (row.updates p).Num := by
  refine ⟨?_, ?_, ?_⟩
  · simp only [LogProgress.updates]
    split
    · rfl
    · exact hm.symm
  · simp only [LogProgress.updates]
    split
    · exact le_refl _
    · exact ho
  · simp only [LogProgress.updates]
    split
    · exact le_refl _
    · exact hn

theorem upsertProgress_monotone (rows : List LogProgress) (p : LogProgress)
    (h : ∀ r ∈ rows, r.MachineID = p.MachineID → r.Offset ≤ p.Offset ∧ r.Num ≤ p.Num) :
    ∃ updated added : List LogProgress, upsertProgress rows p = updated ++ added ∧
      List.Forall₂ (fun a b => b.MachineID = a.MachineID ∧ a.Offset ≤ b.Offset ∧ a.Num ≤ b.Num)
        rows updated := by
  unfold upsertProgress
  split
  · refine ⟨_, [], (List.append_nil _).symm, ?_⟩
    rw [List.forall₂_map_right_iff, List.forall₂_same]
    intro r hr
    by_cases hm : r.MachineID = p.MachineID
    · simp only [hm, if_true]
      have := updates_monotone r p hm (h r hr hm).1 (h r hr hm).2
      rw [hm] at this
      exact this
    · simp only [hm, if_false]
      exact ⟨trivial, le_refl _, le_refl _⟩
  · refine ⟨rows, [p], rfl, ?_⟩
    rw [List.forall₂_same]
    intro r _
    exact ⟨rfl, le_refl _, le_refl _⟩

/-- C9 (amended): for every store and every `Add` or `Replace` call whose entry has an
Offset and a Num at least those of every cursor already stored for the entry's machine,
the cursor table after the call consists of the rows it had before, in place, each with
the same machine id and with Offset and Num greater than or equal to their values before,
followed by the rows the call created. -/
theorem cursor_monotone_of_le (s : SqliteAdapter) (c : Call)
    (h : ∀ p ∈ s.cursorsOf c.entry.MachineID,
      p.Offset ≤ c.entry.Offset ∧ p.Num ≤ c.entry.Num) :
    ∃ updated added : List LogProgress, (s.call c).2.Processes = updated ++ added ∧
      List.Forall₂ (fun a b => b.MachineID = a.MachineID ∧ a.Offset ≤ b.Offset ∧ a.Num ≤ b.Num)
        s.Processes updated := by
  by_cases herr : (s.call c).1 = none
  · simp only [SqliteAdapter.Processes]
    rw [call_ok_progress s c herr]
    apply upsertProgress_monotone
    intro r hr hm
    apply h r
    simp only [SqliteAdapter.cursorsOf, SqliteAdapter.Processes, List.mem_filter]
    exact ⟨hr, by simpa [cursorFor] using hm⟩
  · rw [call_error_unchanged s c herr]
    refine ⟨s.Processes, [], (List.append_nil _).symm, ?_⟩
    rw [List.forall₂_same]
    intro r _
    exact ⟨rfl, le_refl _, le_refl _⟩

/-- C9 as stated fails: after `Add` of an entry of machine "A" with Offset 10 and Num 5,
a successful `Add` of another entry of "A" with Offset 3 and Num 1 lowers the cursor of
"A" from (10, 5) to (3, 1). -/
theorem cursor_decreases_counterexample :
    ((SqliteAdapter.empty.Add (mkRecord "k" "v1" "A" "g1" 10 5)).2.Add
        (mkRecord "k" "v2" "A" "g2" 3 1)).1 = none ∧
    (SqliteAdapter.empty.Add (mkRecord "k" "v1" "A" "g1" 10 5)).2.cursorsOf "A" =
      [{ Offset := 10, Num := 5, Gid := "g1", MachineID := "A" }] ∧
    ((SqliteAdapter.empty.Add (mkRecord "k" "v1" "A" "g1" 10 5)).2.Add
        (mkRecord "k" "v2" "A" "g2" 3 1)).2.cursorsOf "A" =
      [{ Offset := 3, Num := 1, Gid := "g2", MachineID := "A" }] := by
  decide

/-- C9 (amended) at a concrete call: the cursor of "A" is at (10, 5) and the entry added
for "A" has Offset 12 and Num 6. -/
theorem cursor_monotone_of_le_witness :
    ∃ updated added : List LogProgress,
      ((SqliteAdapter.mk [mkRecord "k" "v1" "A" "g1" 10 5] [⟨10, 5, "g1", "A"⟩]).call
        (Call.add (mkRecord "k" "v2" "A" "g2" 12 6))).2.Processes = updated ++ added ∧
      List.Forall₂ (fun a b => b.MachineID = a.MachineID ∧ a.Offset ≤ b.Offset ∧ a.Num ≤ b.Num)
        (SqliteAdapter.mk [mkRecord "k" "v1" "A" "g1" 10 5] [⟨10, 5, "g1", "A"⟩]).Processes
        updated :=
  cursor_monotone_of_le (SqliteAdapter.mk [mkRecord "k" "v1" "A" "g1" 10 5] [⟨10, 5, "g1", "A"⟩])
    (Call.add (mkRecord "k" "v2" "A" "g2" 12 6)) (by decide)

theorem GetByGid_of_not_mem (s : SqliteAdapter) (gid : String)
    (h : ∀ r ∈ s.records, r.CurrentLogGid ≠ gid) :
    s.GetByGid gid = .error "record not found" := by
  have hf : s.records.find? (fun r => decide (r.CurrentLogGid = gid)) = none := by
    rw [List.find?_eq_none]
    intro r hr
    simpa using h r hr
  simp [SqliteAdapter.GetByGid, hf]

theorem find?_append_singleton_of_not_mem (l : List DBRecord) (e : DBRecord)
    (h : ∀ r ∈ l, r.CurrentLogGid ≠ e.CurrentLogGid) :
    (l ++ [e]).find? (fun r => decide (r.CurrentLogGid = e.CurrentLogGid)) = some e := by
  induction l with
  | nil => simp
  | cons a l ih =>
    have ha : a.CurrentLogGid ≠ e.CurrentLogGid := h a (List.mem_cons_self _ _)
    simp only [List.cons_append, List.find?_cons, ha, decide_False]
    exact ih (fun r hr => h r (List.mem_cons_of_mem _ hr))

/-- After a successful `Replace`, the old gid is gone and the new entry is read back
field for field. -/
theorem Replace_ok_lookup (s : SqliteAdapter) (old : String) (new_ : DBRecord)
    (h : s.Has old = true) (h2 : s.Has new_.CurrentLogGid = false) :
    (s.Replace old new_).1 = none ∧
    (s.Replace old new_).2.GetByGid old = .error "record not found" ∧
    (s.Replace old new_).2.Has old = false ∧
    (s.Replace old new_).2.GetByGid new_.CurrentLogGid = .ok new_ := by
  have hne : new_.CurrentLogGid ≠ old := by
    intro heq
    rw [heq, h] at h2
    cases h2
  have hnot : ∀ r ∈ (s.Replace old new_).2.records, r.CurrentLogGid ≠ old := by
    rw [Replace_of_Has_old_not_new s old new_ h h2]
    intro r hr
    rcases List.mem_append.1 hr with hr | hr
    · simpa using (List.mem_filter.1 hr).2
    · rw [List.mem_singleton.1 hr]; exact hne
  refine ⟨?_, GetByGid_of_not_mem _ _ hnot, (Has_eq_false_iff _ _).2 hnot, ?_⟩
  · rw [Replace_of_Has_old_not_new s old new_ h h2]
  · rw [Replace_of_Has_old_not_new s old new_ h h2]
    simp only [SqliteAdapter.GetByGid]
    rw [find?_append_singleton_of_not_mem]
    intro r hr
    exact (Has_eq_false_iff s _).1 h2 r (List.mem_of_mem_filter hr)

/-- The cursor rows of the entry's machine after a successful call, when the entry's
Offset, Num and gid are not zero values: there is one, and each equals the entry's
(Offset, Num, gid). -/
theorem call_ok_cursor_of_nonzero (s : SqliteAdapter) (c : Call) (h : (s.call c).1 = none)
    (ho : c.entry.Offset ≠ 0) (hn : c.entry.Num ≠ 0) (hg : c.entry.CurrentLogGid ≠ "") :
    (s.call c).2.cursorsOf c.entry.MachineID ≠ [] ∧
    ∀ p ∈ (s.call c).2.cursorsOf c.entry.MachineID, p = cursorFor c.entry := by
  simp only [SqliteAdapter.cursorsOf, SqliteAdapter.Processes]
  rw [call_ok_progress s c h]
  unfold upsertProgress
  split
  · rename_i hany
    obtain ⟨r, hr, hrm⟩ := List.any_eq_true.1 hany
    have hrm2 : r.MachineID = c.entry.MachineID := by simpa [cursorFor] using hrm
    have hupd : ∀ q : LogProgress, q.MachineID = c.entry.MachineID →
        q.updates (cursorFor c.entry) = cursorFor c.entry := by
      intro q hq
      simp only [LogProgress.updates, cursorFor, ho, hn, hg, if_false]
      split
      · rename_i he; rw [hq, he]
      · rfl
    constructor
    · intro hnil
      have hmem : r.updates (cursorFor c.entry) ∈
          List.filter (fun p => decide (p.MachineID = c.entry.MachineID))
            (List.map (fun r => if r.MachineID = (cursorFor c.entry).MachineID
              then r.updates (cursorFor c.entry) else r) s.progress) := by
        rw [List.mem_filter]
        refine ⟨List.mem_map.2 ⟨r, hr, by simp [cursorFor, hrm2]⟩, ?_⟩
        rw [hupd r hrm2]
        simp [cursorFor]
      rw [hnil] at hmem
      cases hmem
    · intro p hp
      obtain ⟨hp1, hp2⟩ := List.mem_filter.1 hp
      obtain ⟨q, _, hqp⟩ := List.mem_map.1 hp1
      by_cases hqm : q.MachineID = c.entry.MachineID
      · have : q.MachineID = (cursorFor c.entry).MachineID := by simpa [cursorFor] using hqm
        rw [if_pos this, hupd q hqm] at hqp
        exact hqp.symm
      · have : ¬ q.MachineID = (cursorFor c.entry).MachineID := by simpa [cursorFor] using hqm
        rw [if_neg this] at hqp
        subst hqp
        exact absurd (by simpa using hp2) hqm
  · rename_i hany
    have hnone : ∀ r ∈ s.progress, r.MachineID ≠ c.entry.MachineID := by
      intro r hr hrm
      exact hany (List.any_eq_true.2 ⟨r, hr, by simp [cursorFor, hrm]⟩)
    have hfil : List.filter (fun p => decide (p.MachineID = c.entry.MachineID))
        (s.progress ++ [cursorFor c.entry]) = [cursorFor c.entry] := by
      rw [List.filter_append, List.filter_eq_nil_iff.2 (fun r hr => by simpa using hnone r hr)]
      simp [cursorFor]
    rw [hfil]
    simp

/-- C5 fails on the update path: from the empty store, `Add` of an entry of machine "A"
with Offset 100 and Num 7 creates the cursor (100, 7, "g1"); the following `Add` of an
entry of "A" with gid "g2", Offset 0 and Num 0 succeeds and stores the entry, but the
cursor of "A" is then (100, 7, "g2"), not (0, 0, "g2").  On the create path the zero
values are stored: the same entry added to the empty store gives the cursor (0, 0, "g2"). -/
theorem Add_zero_fields_keep_old_cursor :
    ((SqliteAdapter.empty.Add (mkRecord "k" "v1" "A" "g1" 100 7)).2.Add
        (mkRecord "k" "v2" "A" "g2" 0 0)).1 = none ∧
    ((SqliteAdapter.empty.Add (mkRecord "k" "v1" "A" "g1" 100 7)).2.Add
        (mkRecord "k" "v2" "A" "g2" 0 0)).2.Has "g2" = true ∧
    ((SqliteAdapter.empty.Add (mkRecord "k" "v1" "A" "g1" 100 7)).2.Add
        (mkRecord "k" "v2" "A" "g2" 0 0)).2.cursorsOf "A" =
      [{ Offset := 100, Num := 7, Gid := "g2", MachineID := "A" }] ∧
    (SqliteAdapter.empty.Add (mkRecord "k" "v2" "A" "g2" 0 0)).2.cursorsOf "A" =
      [{ Offset := 0, Num := 0, Gid := "g2", MachineID := "A" }] := by
  decide

/-- C7 fails on its cursor part: from the empty store, `Add` of an entry of machine "A"
with gid "g1", Offset 100 and Num 7, then `Replace "g1"` by an entry of "A" with gid "g2",
Offset 0 and Num 0.  The call succeeds, "g1" is gone and "g2" is read back unchanged, but
the cursor of "A" is (100, 7, "g2"), not (0, 0, "g2"). -/
theorem Replace_zero_fields_keep_old_cursor :
    ((SqliteAdapter.empty.Add (mkRecord "k" "v1" "A" "g1" 100 7)).2.Replace "g1"
        (mkRecord "k" "v2" "A" "g2" 0 0)).1 = none ∧
    ((SqliteAdapter.empty.Add (mkRecord "k" "v1" "A" "g1" 100 7)).2.Replace "g1"
        (mkRecord "k" "v2" "A" "g2" 0 0)).2.Has "g1" = false ∧
    ((SqliteAdapter.empty.Add (mkRecord "k" "v1" "A" "g1" 100 7)).2.Replace "g1"
        (mkRecord "k" "v2" "A" "g2" 0 0)).2.GetByGid "g2" =
      .ok (mkRecord "k" "v2" "A" "g2" 0 0) ∧
    ((SqliteAdapter.empty.Add (mkRecord "k" "v1" "A" "g1" 100 7)).2.Replace "g1"
        (mkRecord "k" "v2" "A" "g2" 0 0)).2.cursorsOf "A" =
      [{ Offset := 100, Num := 7, Gid := "g2", MachineID := "A" }] := by
  refine ⟨by decide, by decide, rfl, by decide⟩

theorem from_singleton (e : DBRecord) (A : String) (h : e.MachineID = A) :
    Value.from_ { versions := [] } [some e] A =
      (none, { versions := [some { key := e.Key, value := e.Value, machineID := e.MachineID,
                                   gid := e.CurrentLogGid, seq := 0 }] }) := by
  simp [Value.from_, findMain, h, Value.fromLoop]

theorem GetByKey_append_singleton (l : List DBRecord) (p : List LogProgress) (e : DBRecord)
    (k : String) (hk : e.Key = k) (hl : ∀ r ∈ l, r.Key ≠ k) :
    (SqliteAdapter.mk (l ++ [e]) p).GetByKey k = [some e] := by
  simp only [SqliteAdapter.GetByKey, List.filter_append]
  rw [List.filter_eq_nil_iff.2 (fun r hr => by simpa using hl r hr)]
  simp [hk]

/-- C10 (amended): in a store with no entry for key `k` and with neither the gid of `e1`
nor the gid of `e2` stored, for entries `e1`, `e2` of key `k` and machine `A` with
distinct gids and with `Seq` below 2^63 (so that the driver accepts them): `Add e1` succeeds and reading `k` as `A` gives main `e1` and no branches;
the following `Replace e1.gid e2` succeeds, reading `k` as `A` gives main `e2` and no
branches, and `GetByGid e1.gid` fails. -/
theorem write_then_rewrite (s : SqliteAdapter) (k A : String) (e1 e2 : DBRecord)
    (hk1 : e1.Key = k) (hk2 : e2.Key = k) (hA1 : e1.MachineID = A) (hA2 : e2.MachineID = A)
    (hne : e1.CurrentLogGid ≠ e2.CurrentLogGid)
    (hk : ∀ r ∈ s.records, r.Key ≠ k)
    (hg1 : ∀ r ∈ s.records, r.CurrentLogGid ≠ e1.CurrentLogGid)
    (hg2 : ∀ r ∈ s.records, r.CurrentLogGid ≠ e2.CurrentLogGid)
    (_hs1 : e1.driverAccepts = true) (_hs2 : e2.driverAccepts = true) :
    (s.Add e1).1 = none ∧
    (Value.from_ { versions := [] } ((s.Add e1).2.GetByKey k) A).1 = none ∧
    (Value.from_ { versions := [] } ((s.Add e1).2.GetByKey k) A).2.Main =
      some (some { key := k, value := e1.Value, machineID := A, gid := e1.CurrentLogGid,
                   seq := 0 }) ∧
    (Value.from_ { versions := [] } ((s.Add e1).2.GetByKey k) A).2.Branches = some [] ∧
    ((s.Add e1).2.Replace e1.CurrentLogGid e2).1 = none ∧
    (Value.from_ { versions := [] }
      (((s.Add e1).2.Replace e1.CurrentLogGid e2).2.GetByKey k) A).1 = none ∧
    (Value.from_ { versions := [] }
      (((s.Add e1).2.Replace e1.CurrentLogGid e2).2.GetByKey k) A).2.Main =
      some (some { key := k, value := e2.Value, machineID := A, gid := e2.CurrentLogGid,
                   seq := 0 }) ∧
    (Value.from_ { versions := [] }
      (((s.Add e1).2.Replace e1.CurrentLogGid e2).2.GetByKey k) A).2.Branches = some [] ∧
    ((s.Add e1).2.Replace e1.CurrentLogGid e2).2.GetByGid e1.CurrentLogGid =
      .error "record not found" := by
  have hH1 : s.Has e1.CurrentLogGid = false := (Has_eq_false_iff s _).2 hg1
  have hadd := Add_of_not_Has s e1 hH1
  have hH1a : (s.Add e1).2.Has e1.CurrentLogGid = true := by
    rw [hadd, Has_eq_true_iff]
    exact ⟨e1, by simp, rfl⟩
  have hH2a : (s.Add e1).2.Has e2.CurrentLogGid = false := by
    rw [hadd, Has_eq_false_iff]
    intro r hr
    rcases List.mem_append.1 hr with hr | hr
    · exact hg2 r hr
    · rw [List.mem_singleton.1 hr]; exact hne
  have hrep := Replace_of_Has_old_not_new (s.Add e1).2 e1.CurrentLogGid e2 hH1a hH2a
  have hlook := Replace_ok_lookup (s.Add e1).2 e1.CurrentLogGid e2 hH1a hH2a
  have hget1 : (s.Add e1).2.GetByKey k = [some e1] := by
    rw [hadd]
    exact GetByKey_append_singleton _ _ _ _ hk1 hk
  have hget2 : ((s.Add e1).2.Replace e1.CurrentLogGid e2).2.GetByKey k = [some e2] := by
    rw [hrep]
    apply GetByKey_append_singleton _ _ _ _ hk2
    intro r hr
    have hr2 := List.mem_filter.1 hr
    rw [hadd] at hr2
    rcases List.mem_append.1 hr2.1 with hr3 | hr3
    · exact hk r hr3
    · rw [List.mem_singleton.1 hr3] at hr2
      simp at hr2
  rw [hget1, hget2, from_singleton e1 A hA1, from_singleton e2 A hA2]
  refine ⟨by rw [hadd], rfl, ?_, rfl, hlook.1, rfl, ?_, rfl, hlook.2.1⟩
  · simp [Value.Main, hk1, hA1]
  · simp [Value.Main, hk2, hA2]

/-- C10 at a concrete input: the store holds an entry of key "j", and machine "A" writes
key "k" twice. -/
theorem write_then_rewrite_witness :
    ((SqliteAdapter.mk [mkRecord "j" "w" "B" "g0" 8 1] [⟨8, 1, "g0", "B"⟩]).Add
      (mkRecord "k" "v1" "A" "g1" 8 1)).1 = none ∧
    (Value.from_ { versions := [] }
      (((SqliteAdapter.mk [mkRecord "j" "w" "B" "g0" 8 1] [⟨8, 1, "g0", "B"⟩]).Add
        (mkRecord "k" "v1" "A" "g1" 8 1)).2.GetByKey "k") "A").2.Main =
      some (some { key := "k", value := "v1", machineID := "A", gid := "g1", seq := 0 }) ∧
    (Value.from_ { versions := [] }
      ((((SqliteAdapter.mk [mkRecord "j" "w" "B" "g0" 8 1] [⟨8, 1, "g0", "B"⟩]).Add
        (mkRecord "k" "v1" "A" "g1" 8 1)).2.Replace "g1"
          (mkRecord "k" "v2" "A" "g2" 16 2)).2.GetByKey "k") "A").2.Main =
      some (some { key := "k", value := "v2", machineID := "A", gid := "g2", seq := 0 }) ∧
    (((SqliteAdapter.mk [mkRecord "j" "w" "B" "g0" 8 1] [⟨8, 1, "g0", "B"⟩]).Add
        (mkRecord "k" "v1" "A" "g1" 8 1)).2.Replace "g1"
          (mkRecord "k" "v2" "A" "g2" 16 2)).2.GetByGid "g1" = .error "record not found" :=
  have h := write_then_rewrite
    (SqliteAdapter.mk [mkRecord "j" "w" "B" "g0" 8 1] [⟨8, 1, "g0", "B"⟩]) "k" "A"
    (mkRecord "k" "v1" "A" "g1" 8 1) (mkRecord "k" "v2" "A" "g2" 16 2)
    rfl rfl rfl rfl (by decide) (by decide) (by decide) (by decide) (by decide) (by decide)
  ⟨h.1, h.2.2.1, h.2.2.2.2.2.2.1, h.2.2.2.2.2.2.2.2⟩

/-- C10 as stated fails: the store holds no entry for key "k" but holds the gid "g1" under
key "j".  For `e1` of key "k", machine "A", gid "g1" (and `e2` with gid "g2"), `Add e1`
fails with "node exists", no entry for "k" is stored, and reading "k" as "A" fails. -/
theorem write_gid_taken_counterexample :
    (SqliteAdapter.empty.Add (mkRecord "j" "w" "B" "g1" 8 1)).2.GetByKey "k" = [] ∧
    (mkRecord "k" "v1" "A" "g1" 8 1).CurrentLogGid ≠
      (mkRecord "k" "v2" "A" "g2" 16 2).CurrentLogGid ∧
    ((SqliteAdapter.empty.Add (mkRecord "j" "w" "B" "g1" 8 1)).2.Add
      (mkRecord "k" "v1" "A" "g1" 8 1)).1 = some "node exists" ∧
    (Value.from_ { versions := [] }
      (((SqliteAdapter.empty.Add (mkRecord "j" "w" "B" "g1" 8 1)).2.Add
        (mkRecord "k" "v1" "A" "g1" 8 1)).2.GetByKey "k") "A").1 =
      some "cannot find main node" := by
  decide

/-! ## The reader on conflicting heads -/

theorem otherLeaves_map_some (gid : String) (es : List DBRecord) :
    otherLeaves gid (es.map some) = es.filter (fun e => !decide (e.CurrentLogGid = gid)) := by
  simp [otherLeaves, List.filterMap_map]

theorem from_versions_of_findMain (v : Value) (leaves : List (Option DBRecord)) (m : String)
    (main : DBRecord) (h : findMain leaves m = some main) :
    Value.from_ v leaves m =
      (none, { versions := v.versions ++
        (some { key := main.Key, value := main.Value, machineID := main.MachineID,
                gid := main.CurrentLogGid, seq := 0 } ::
          (branchVersions 1 (otherLeaves main.CurrentLogGid leaves)).map some) }) := by
  have hv := fromLoop_versions main leaves 1
    { versions := v.versions ++
        [some { key := main.Key, value := main.Value, gid := main.CurrentLogGid,
                machineID := main.MachineID, seq := 0 }] }
  simp only [Value.from_, h]
  congr 1
  cases hres : Value.fromLoop main leaves 1
    { versions := v.versions ++
        [some { key := main.Key, value := main.Value, gid := main.CurrentLogGid,
                machineID := main.MachineID, seq := 0 }] } with
  | mk vs =>
    rw [hres] at hv
    simp only at hv
    rw [hv]
    simp

theorem findMain_of_nodup_machine (es : List DBRecord) (m : String) (e : DBRecord)
    (hm : (es.map (fun x => x.MachineID)).Nodup) (he : e ∈ es) (hem : e.MachineID = m) :
    findMain (es.map some) m = some e := by
  cases hfm : findMain (es.map some) m with
  | none =>
    have := (findMain_eq_none_iff _ _).1 hfm e (List.mem_map.2 ⟨e, he, rfl⟩)
    exact absurd hem this
  | some main =>
    obtain ⟨hmem, hmid⟩ := findMain_eq_some _ _ _ hfm
    obtain ⟨x, hx, hxe⟩ := List.mem_map.1 hmem
    cases hxe
    have := List.inj_on_of_nodup_map hm hx he (hmid.trans hem.symm)
    rw [this]

theorem filter_gid_eq_singleton (es : List DBRecord) (e : DBRecord)
    (hg : (es.map (fun x => x.CurrentLogGid)).Nodup) (he : e ∈ es) :
    es.filter (fun x => decide (x.CurrentLogGid = e.CurrentLogGid)) = [e] := by
  induction es with
  | nil => cases he
  | cons a l ih =>
    rw [List.map_cons, List.nodup_cons] at hg
    rcases List.mem_cons.1 he with hea | hel
    · subst hea
      have hnone : l.filter (fun x => decide (x.CurrentLogGid = e.CurrentLogGid)) = [] := by
        rw [List.filter_eq_nil_iff]
        intro x hx hxe
        exact hg.1 (List.mem_map.2 ⟨x, hx, by simpa using hxe⟩)
      simp [List.filter, hnone]
    · have hne : a.CurrentLogGid ≠ e.CurrentLogGid := by
        intro heq
        exact hg.1 (List.mem_map.2 ⟨e, hel, heq.symm⟩)
      simp only [List.filter, hne, decide_False]
      exact ih hg.2 hel

theorem cons_filter_gid_ne_perm (es : List DBRecord) (e : DBRecord)
    (hg : (es.map (fun x => x.CurrentLogGid)).Nodup) (he : e ∈ es) :
    List.Perm (e :: es.filter (fun x => !decide (x.CurrentLogGid = e.CurrentLogGid))) es := by
  have h := List.filter_append_perm (fun x => decide (x.CurrentLogGid = e.CurrentLogGid)) es
  rw [filter_gid_eq_singleton es e hg he] at h
  exact h

/-- C11: for a list of non-nil entries with pairwise distinct gids and pairwise distinct
machine ids and a machine `m` that has an entry `e` in it, `Value.from` succeeds, `Main()`
is the version of `e`, and the versions (main, then branches) are the entries of the list,
each exactly once (a permutation, compared on key, value, machine id and gid).  For two
entries `eA`, `eB` of different machines and gids, reading as the machine of `eA` gives
main `eA` and the single branch `eB`; reading as the machine of `eB` gives main `eB` and
the single branch `eA`. -/
theorem heads_never_lost :
    (∀ (es : List DBRecord) (m : String) (e : DBRecord),
      (es.map (fun x => x.CurrentLogGid)).Nodup → (es.map (fun x => x.MachineID)).Nodup →
      e ∈ es → e.MachineID = m →
      (Value.from_ { versions := [] } (es.map some) m).1 = none ∧
      (Value.from_ { versions := [] } (es.map some) m).2.Main =
        some (some { key := e.Key, value := e.Value, machineID := e.MachineID,
                     gid := e.CurrentLogGid, seq := 0 }) ∧
      ∃ vs : List ValueVersion,
        (Value.from_ { versions := [] } (es.map some) m).2.versions = vs.map some ∧
        List.Perm (vs.map (fun b => (b.key, b.value, b.machineID, b.gid)))
          (es.map (fun x => (x.Key, x.Value, x.MachineID, x.CurrentLogGid)))) ∧
    (∀ eA eB : DBRecord, eA.CurrentLogGid ≠ eB.CurrentLogGid → eA.MachineID ≠ eB.MachineID →
      Value.from_ { versions := [] } [some eA, some eB] eA.MachineID =
        (none, { versions :=
          [some { key := eA.Key, value := eA.Value, machineID := eA.MachineID,
                  gid := eA.CurrentLogGid, seq := 0 },
           some { key := eB.Key, value := eB.Value, machineID := eB.MachineID,
                  gid := eB.CurrentLogGid, seq := 1 }] }) ∧
      Value.from_ { versions := [] } [some eA, some eB] eB.MachineID =
        (none, { versions :=
          [some { key := eB.Key, value := eB.Value, machineID := eB.MachineID,
                  gid := eB.CurrentLogGid, seq := 0 },
           some { key := eA.Key, value := eA.Value, machineID := eA.MachineID,
                  gid := eA.CurrentLogGid, seq := 1 }] })) := by
  constructor
  · intro es m e hg hm he hem
    have hfm := findMain_of_nodup_machine es m e hm he hem
    rw [from_versions_of_findMain _ _ _ _ hfm]
    refine ⟨rfl, by simp [Value.Main], ?_⟩
    refine ⟨{ key := e.Key, value := e.Value, machineID := e.MachineID,
              gid := e.CurrentLogGid, seq := 0 } ::
            branchVersions 1 (otherLeaves e.CurrentLogGid (es.map some)), by simp, ?_⟩
    rw [List.map_cons, branchVersions_fields, otherLeaves_map_some]
    exact (cons_filter_gid_ne_perm es e hg he).map
      (fun x => (x.Key, x.Value, x.MachineID, x.CurrentLogGid))
  · intro eA eB hgid hmach
    constructor
    · simp [Value.from_, findMain, Value.fromLoop, hgid.symm]
    · simp [Value.from_, findMain, Value.fromLoop, hmach, hgid]

/-- C11 at a concrete input: heads of machines "A" and "B" for key "k", read as "B". -/
theorem heads_never_lost_witness :
    (Value.from_ { versions := [] }
      ([mkRecord "k" "v2" "A" "g2" 16 2, mkRecord "k" "vB" "B" "g3" 8 1].map some) "B").1 = none ∧
    (Value.from_ { versions := [] }
      ([mkRecord "k" "v2" "A" "g2" 16 2, mkRecord "k" "vB" "B" "g3" 8 1].map some) "B").2.Main =
      some (some { key := "k", value := "vB", machineID := "B", gid := "g3", seq := 0 }) :=
  have h := heads_never_lost.1 [mkRecord "k" "v2" "A" "g2" 16 2, mkRecord "k" "vB" "B" "g3" 8 1]
    "B" (mkRecord "k" "vB" "B" "g3" 8 1) (by decide) (by decide) (by decide) rfl
  ⟨h.1, h.2.1⟩

theorem mem_branchVersions (seq : Int) (es : List DBRecord) (b : ValueVersion)
    (h : b ∈ branchVersions seq es) :
    ∃ e ∈ es, b.key = e.Key ∧ b.value = e.Value ∧ b.machineID = e.MachineID ∧
      b.gid = e.CurrentLogGid := by
  induction es generalizing seq with
  | nil => cases h
  | cons a l ih =>
    simp only [branchVersions, List.mem_cons] at h
    rcases h with h | h
    · exact ⟨a, List.mem_cons_self _ _, by rw [h], by rw [h], by rw [h], by rw [h]⟩
    · obtain ⟨e, he, hf⟩ := ih (seq + 1) h
      exact ⟨e, List.mem_cons_of_mem _ he, hf⟩

theorem mem_otherLeaves (gid : String) (leaves : List (Option DBRecord)) (e : DBRecord) :
    e ∈ otherLeaves gid leaves ↔ some e ∈ leaves ∧ e.CurrentLogGid ≠ gid := by
  simp [otherLeaves, List.mem_filter, List.mem_filterMap]

/-- Where the branches of a successful read come from: each is the version of a non-nil
leaf whose gid differs from the gid of the main entry. -/
theorem branch_origin (leaves : List (Option DBRecord)) (m : String) (main : DBRecord)
    (h : findMain leaves m = some main) (bs : List (Option ValueVersion))
    (hbs : (Value.from_ { versions := [] } leaves m).2.Branches = some bs)
    (b : ValueVersion) (hb : some b ∈ bs) :
    ∃ e, some e ∈ leaves ∧ e.CurrentLogGid ≠ main.CurrentLogGid ∧ b.key = e.Key ∧
      b.value = e.Value ∧ b.machineID = e.MachineID ∧ b.gid = e.CurrentLogGid := by
  rw [from_versions_of_findMain _ _ _ _ h] at hbs
  simp only [Value.Branches, List.nil_append, Option.some.injEq] at hbs
  subst hbs
  obtain ⟨b2, hb2, hbb⟩ := List.mem_map.1 hb
  cases hbb
  obtain ⟨e, he, hf⟩ := mem_branchVersions _ _ _ hb2
  obtain ⟨hmem, hne⟩ := (mem_otherLeaves _ _ _).1 he
  exact ⟨e, hmem, hne, hf⟩

theorem exists_mem_branchVersions (seq : Int) (es : List DBRecord) (e : DBRecord)
    (h : e ∈ es) :
    ∃ b ∈ branchVersions seq es, b.key = e.Key ∧ b.value = e.Value ∧
      b.machineID = e.MachineID ∧ b.gid = e.CurrentLogGid := by
  induction es generalizing seq with
  | nil => cases h
  | cons a l ih =>
    rcases List.mem_cons.1 h with h | h
    · subst h
      exact ⟨_, List.mem_cons_self _ _, rfl, rfl, rfl, rfl⟩
    · obtain ⟨b, hb, hf⟩ := ih (seq + 1) h
      exact ⟨b, List.mem_cons_of_mem _ hb, hf⟩

/-- C12 (amended): `Visible()` is false exactly when `IsDeleted` or `IsDiscarded` is set.
`Value.from` applies no visibility test: when it succeeds, `Main()` and every element of
`Branches()` is the version of a non-nil entry of `leaves` (an entry that is `Visible()`
whenever every non-nil entry of `leaves` is), and every non-nil entry of `leaves` whose
gid differs from the gid of the main entry, `Visible()` or not, has its version among
`Branches()`. -/
theorem Visible_and_reader :
    (∀ r : DBRecord, r.Visible = false ↔ (r.IsDeleted = true ∨ r.IsDiscarded = true)) ∧
    (∀ (leaves : List (Option DBRecord)) (m : String),
      (Value.from_ { versions := [] } leaves m).1 = none →
      (∀ b, some b ∈ (Value.from_ { versions := [] } leaves m).2.versions →
        ∃ e, some e ∈ leaves ∧ b.key = e.Key ∧ b.value = e.Value ∧
          b.machineID = e.MachineID ∧ b.gid = e.CurrentLogGid ∧
          ((∀ x, some x ∈ leaves → x.Visible = true) → e.Visible = true)) ∧
      ∃ main, some main ∈ leaves ∧
        (Value.from_ { versions := [] } leaves m).2.Main =
          some (some { key := main.Key, value := main.Value, machineID := main.MachineID,
                       gid := main.CurrentLogGid, seq := 0 }) ∧
        ∃ bs, (Value.from_ { versions := [] } leaves m).2.Branches = some bs ∧
          ∀ e, some e ∈ leaves → e.CurrentLogGid ≠ main.CurrentLogGid →
            ∃ b, some b ∈ bs ∧ b.key = e.Key ∧ b.value = e.Value ∧
              b.machineID = e.MachineID ∧ b.gid = e.CurrentLogGid) := by
  constructor
  · intro r
    cases hd : r.IsDeleted <;> cases hc : r.IsDiscarded <;> simp [DBRecord.Visible, hd, hc]
  · intro leaves m hok
    cases hfm : findMain leaves m with
    | none => simp [Value.from_, hfm] at hok
    | some main =>
      obtain ⟨hmem, _⟩ := findMain_eq_some leaves m main hfm
      have hbr := branch_origin leaves m main hfm
      rw [from_versions_of_findMain _ _ _ _ hfm] at hbr ⊢
      constructor
      · intro b hb
        simp only [List.nil_append, List.mem_cons, Option.some.injEq] at hb
        rcases hb with hb | hb
        · exact ⟨main, hmem, by rw [hb], by rw [hb], by rw [hb], by rw [hb],
            fun hvis => hvis main hmem⟩
        · obtain ⟨e, he, _, h1, h2, h3, h4⟩ := hbr _ (by simp [Value.Branches]) b hb
          exact ⟨e, he, h1, h2, h3, h4, fun hvis => hvis e he⟩
      · refine ⟨main, hmem, by simp [Value.Main],
          (branchVersions 1 (otherLeaves main.CurrentLogGid leaves)).map some,
          by simp [Value.Branches], ?_⟩
        intro e he hne
        obtain ⟨b, hb, hf⟩ := exists_mem_branchVersions 1 _ e
          ((mem_otherLeaves main.CurrentLogGid leaves e).2 ⟨he, hne⟩)
        exact ⟨b, List.mem_map.2 ⟨b, hb, rfl⟩, hf⟩

/-- C12 (amended) at a concrete input: the visible head "g1" of machine "A" and the head
"g2" of machine "B" marked deleted, read as "A"; the second version comes from the deleted
entry. -/
theorem Visible_and_reader_witness :
    (Value.from_ { versions := [] }
      [some (mkRecord "k" "vA" "A" "g1" 8 1),
       some { mkRecord "k" "vB" "B" "g2" 8 1 with IsDeleted := true }] "A").1 = none ∧
    some { key := "k", value := "vB", machineID := "B", gid := "g2", seq := 1 } ∈
      (Value.from_ { versions := [] }
        [some (mkRecord "k" "vA" "A" "g1" 8 1),
         some { mkRecord "k" "vB" "B" "g2" 8 1 with IsDeleted := true }] "A").2.versions ∧
    ∃ e, some e ∈ [some (mkRecord "k" "vA" "A" "g1" 8 1),
        some { mkRecord "k" "vB" "B" "g2" 8 1 with IsDeleted := true }] ∧
      "k" = e.Key ∧ "vB" = e.Value ∧ "B" = e.MachineID ∧ "g2" = e.CurrentLogGid ∧
      ((∀ x, some x ∈ [some (mkRecord "k" "vA" "A" "g1" 8 1),
          some { mkRecord "k" "vB" "B" "g2" 8 1 with IsDeleted := true }] →
        x.Visible = true) → e.Visible = true) :=
  ⟨by decide, by decide,
   (Visible_and_reader.2
      [some (mkRecord "k" "vA" "A" "g1" 8 1),
       some { mkRecord "k" "vB" "B" "g2" 8 1 with IsDeleted := true }] "A" (by decide)).1
      { key := "k", value := "vB", machineID := "B", gid := "g2", seq := 1 } (by decide)⟩

/-- C12 as stated fails: the leaves are the visible head "g1" of machine "A" and the head
"g2" of machine "B" marked deleted.  Reading as "A" succeeds and `Branches()` holds the
version of the deleted entry. -/
theorem deleted_branch_counterexample :
    ({ mkRecord "k" "vB" "B" "g2" 8 1 with IsDeleted := true } : DBRecord).Visible = false ∧
    (Value.from_ { versions := [] }
      [some (mkRecord "k" "vA" "A" "g1" 8 1),
       some { mkRecord "k" "vB" "B" "g2" 8 1 with IsDeleted := true }] "A").1 = none ∧
    (Value.from_ { versions := [] }
      [some (mkRecord "k" "vA" "A" "g1" 8 1),
       some { mkRecord "k" "vB" "B" "g2" 8 1 with IsDeleted := true }] "A").2.Branches =
      some [some { key := "k", value := "vB", machineID := "B", gid := "g2", seq := 1 }] := by
  decide

/-- C13 (amended): when all non-nil entries of `leaves` with machine id `m` carry the same
gid (in particular when `m` has a single entry in `leaves`) and `Value.from` succeeds,
every element of `Branches()` has a machine id different from `m`. -/
theorem branches_of_other_machines (leaves : List (Option DBRecord)) (m : String)
    (hok : (Value.from_ { versions := [] } leaves m).1 = none)
    (hone : ∀ e1 e2, some e1 ∈ leaves → some e2 ∈ leaves → e1.MachineID = m →
      e2.MachineID = m → e1.CurrentLogGid = e2.CurrentLogGid) :
    ∃ bs, (Value.from_ { versions := [] } leaves m).2.Branches = some bs ∧
      ∀ b, some b ∈ bs → b.machineID ≠ m := by
  cases hfm : findMain leaves m with
  | none => simp [Value.from_, hfm] at hok
  | some main =>
    obtain ⟨hmem, hmid⟩ := findMain_eq_some leaves m main hfm
    have hbr := branch_origin leaves m main hfm
    rw [from_versions_of_findMain _ _ _ _ hfm] at hbr ⊢
    refine ⟨_, rfl, ?_⟩
    intro b hb hbm
    obtain ⟨e, he, hne, _, _, hmach, _⟩ := hbr _ rfl b hb
    exact hne (hone e main he hmem (hmach.symm.trans hbm) hmid)

/-- C13 (amended) at a concrete input: heads of machines "A" and "B", read as "A". -/
theorem branches_of_other_machines_witness :
    ∃ bs, (Value.from_ { versions := [] }
        [some (mkRecord "k" "vA" "A" "g1" 8 1), some (mkRecord "k" "vB" "B" "g2" 8 1)]
        "A").2.Branches = some bs ∧
      ∀ b, some b ∈ bs → b.machineID ≠ "A" :=
  branches_of_other_machines
    [some (mkRecord "k" "vA" "A" "g1" 8 1), some (mkRecord "k" "vB" "B" "g2" 8 1)] "A"
    (by decide)
    (by
      intro e1 e2 h1 h2 hm1 hm2
      simp only [List.mem_cons, Option.some.injEq, List.mem_singleton, List.not_mem_nil,
        or_false] at h1 h2
      rcases h1 with h1 | h1 <;> rcases h2 with h2 | h2 <;> subst h1 <;> subst h2 <;>
        first | rfl | exact absurd hm1 (by decide) | exact absurd hm2 (by decide))

/-- C13 as stated fails: the leaves hold two entries of machine "A" with different gids.
Reading as "A" succeeds with the first as main, and `Branches()` holds the version of the
second, whose machine id is "A". -/
theorem own_branch_counterexample :
    (Value.from_ { versions := [] }
      [some (mkRecord "k" "v1" "A" "g1" 8 1), some (mkRecord "k" "v2" "A" "g2" 16 2)]
      "A").1 = none ∧
    (Value.from_ { versions := [] }
      [some (mkRecord "k" "v1" "A" "g1" 8 1), some (mkRecord "k" "v2" "A" "g2" 16 2)]
      "A").2.Branches =
      some [some { key := "k", value := "v2", machineID := "A", gid := "g2", seq := 1 }] := by
  decide

/-! ## Merge -/

theorem findMain_append_of_ne (l : List (Option DBRecord)) (e : DBRecord) (m : String)
    (h : e.MachineID ≠ m) : findMain (l ++ [some e]) m = findMain l m := by
  induction l with
  | nil => simp [findMain, h]
  | cons a rest ih =>
    cases a with
    | none => simpa [findMain] using ih
    | some x =>
      by_cases hx : x.MachineID = m
      · simp [findMain, hx]
      · simpa [findMain, hx] using ih

/-- C14 (amended): `Merge` is unsupported: for all stores `L` and `R` it returns the error
"unsupported" and `L` unchanged.  Admitting through `Add` an entry `e` whose gid is absent
from `L`, whose machine has no entry for `e.Key` in `L` and whose `Seq` is below 2^63 (so
that the driver accepts it) succeeds; afterwards
`Has e.gid` holds, and reading `e.Key` as a machine `m` that already had an entry for that
key succeeds with the same main as before the admission and with the version of `e`
among the branches. -/
theorem Merge_unsupported_Add_admits :
    (∀ L R : SqliteAdapter, L.Merge R = (some "unsupported", L)) ∧
    (∀ (L : SqliteAdapter) (e : DBRecord) (m : String),
      (∀ r ∈ L.records, r.CurrentLogGid ≠ e.CurrentLogGid) →
      (∀ r ∈ L.records, r.Key = e.Key → r.MachineID ≠ e.MachineID) →
      (∃ h ∈ L.records, h.Key = e.Key ∧ h.MachineID = m) →
      e.driverAccepts = true →
      (L.Add e).1 = none ∧ (L.Add e).2.Has e.CurrentLogGid = true ∧
      (Value.from_ { versions := [] } (L.GetByKey e.Key) m).1 = none ∧
      (Value.from_ { versions := [] } ((L.Add e).2.GetByKey e.Key) m).1 = none ∧
      (Value.from_ { versions := [] } ((L.Add e).2.GetByKey e.Key) m).2.Main =
        (Value.from_ { versions := [] } (L.GetByKey e.Key) m).2.Main ∧
      ∃ bs, (Value.from_ { versions := [] } ((L.Add e).2.GetByKey e.Key) m).2.Branches =
          some bs ∧
        ∃ b, some b ∈ bs ∧ b.key = e.Key ∧ b.value = e.Value ∧
          b.machineID = e.MachineID ∧ b.gid = e.CurrentLogGid) := by
  refine ⟨fun L R => rfl, ?_⟩
  intro L e m hgid hmach hhead _
  obtain ⟨h, hh, hhk, hhm⟩ := hhead
  have hem : e.MachineID ≠ m := fun heq => hmach h hh hhk (hhm.trans heq.symm)
  have hH : L.Has e.CurrentLogGid = false := (Has_eq_false_iff L _).2 hgid
  have hadd := Add_of_not_Has L e hH
  have hget : (L.Add e).2.GetByKey e.Key = L.GetByKey e.Key ++ [some e] := by
    rw [hadd]
    simp [SqliteAdapter.GetByKey, List.filter_append]
  have hne : findMain (L.GetByKey e.Key) m ≠ none := by
    intro hnone
    have := (findMain_eq_none_iff _ _).1 hnone h (by
      simp only [SqliteAdapter.GetByKey, List.mem_map, List.mem_filter]
      exact ⟨h, ⟨hh, by simpa using hhk⟩, rfl⟩)
    exact this hhm
  cases hfm : findMain (L.GetByKey e.Key) m with
  | none => exact absurd hfm hne
  | some main =>
    have hfm2 : findMain (L.GetByKey e.Key ++ [some e]) m = some main := by
      rw [findMain_append_of_ne _ _ _ hem, hfm]
    obtain ⟨hmainmem, _⟩ := findMain_eq_some _ _ _ hfm
    have hmainL : main ∈ L.records := by
      simp only [SqliteAdapter.GetByKey, List.mem_map, List.mem_filter] at hmainmem
      obtain ⟨x, ⟨hx, _⟩, hxe⟩ := hmainmem
      cases hxe
      exact hx
    have heother : e ∈ otherLeaves main.CurrentLogGid (L.GetByKey e.Key ++ [some e]) := by
      rw [mem_otherLeaves]
      exact ⟨by simp, fun heq => hgid main hmainL heq.symm⟩
    obtain ⟨b, hb, hf⟩ := exists_mem_branchVersions 1 _ e heother
    rw [hget, from_versions_of_findMain _ _ _ _ hfm, from_versions_of_findMain _ _ _ _ hfm2]
    refine ⟨by rw [hadd], ?_, rfl, rfl, rfl, _, rfl, b, List.mem_map.2 ⟨b, hb, rfl⟩, hf⟩
    rw [hadd, Has_eq_true_iff]
    exact ⟨e, by simp, rfl⟩

/-- C14 (amended) at the scenario of the spec: machine "A" holds the head "v2" of key "k",
and the head "vB" of machine "B" is admitted through `Add`. -/
theorem Merge_unsupported_Add_admits_witness :
    ((SqliteAdapter.mk [mkRecord "k" "v2" "A" "g2" 16 2] [⟨16, 2, "g2", "A"⟩]).Add
      (mkRecord "k" "vB" "B" "g3" 8 1)).1 = none ∧
    ((SqliteAdapter.mk [mkRecord "k" "v2" "A" "g2" 16 2] [⟨16, 2, "g2", "A"⟩]).Add
      (mkRecord "k" "vB" "B" "g3" 8 1)).2.Has "g3" = true :=
  have h := Merge_unsupported_Add_admits.2
    (SqliteAdapter.mk [mkRecord "k" "v2" "A" "g2" 16 2] [⟨16, 2, "g2", "A"⟩])
    (mkRecord "k" "vB" "B" "g3" 8 1) "A" (by decide) (by decide)
    ⟨mkRecord "k" "v2" "A" "g2" 16 2, by simp, rfl, rfl⟩ (by decide)
  ⟨h.1, h.2.1⟩

/-- C14 as stated fails: `L` holds the head "v2" of machine "A" for key "k", `R` holds the
head "vB" of machine "B" (gid "g3", no predecessor).  `Merge L R` returns "unsupported",
"g3" is not stored in `L` afterwards, and reading "k" as "A" gives main "v2" and no
branch. -/
theorem Merge_admits_nothing_counterexample :
    ((SqliteAdapter.empty.Add (mkRecord "k" "v2" "A" "g2" 16 2)).2.Merge
      (SqliteAdapter.empty.Add (mkRecord "k" "vB" "B" "g3" 8 1)).2).1 = some "unsupported" ∧
    ((SqliteAdapter.empty.Add (mkRecord "k" "v2" "A" "g2" 16 2)).2.Merge
      (SqliteAdapter.empty.Add (mkRecord "k" "vB" "B" "g3" 8 1)).2).2.Has "g3" = false ∧
    (Value.from_ { versions := [] }
      (((SqliteAdapter.empty.Add (mkRecord "k" "v2" "A" "g2" 16 2)).2.Merge
        (SqliteAdapter.empty.Add (mkRecord "k" "vB" "B" "g3" 8 1)).2).2.GetByKey "k") "A").2 =
      { versions := [some { key := "k", value := "v2", machineID := "A", gid := "g2",
                            seq := 0 }] } := by
  decide

/-! ## The change tally -/

theorem mapGet_mapSet_self (m : List (String × Int)) (k : String) (v : Int) :
    mapGet (mapSet m k v) k = some v := by
  induction m with
  | nil => simp [mapSet, mapGet]
  | cons a rest ih =>
    obtain ⟨k2, v2⟩ := a
    by_cases h : k2 = k
    · simp [mapSet, mapGet, h]
    · simp [mapSet, mapGet, h, ih]

theorem mapGet_mapSet_ne (m : List (String × Int)) (k k2 : String) (v : Int) (h : k2 ≠ k) :
    mapGet (mapSet m k v) k2 = mapGet m k2 := by
  induction m with
  | nil => simp [mapSet, mapGet, h.symm]
  | cons a rest ih =>
    obtain ⟨k3, v3⟩ := a
    by_cases h3 : k3 = k
    · subst h3
      simp [mapSet, mapGet, h.symm]
    · by_cases h4 : k3 = k2
      · subst h4
        simp [mapSet, mapGet, h3]
      · simp [mapSet, mapGet, h3, h4, ih]

theorem mapGet_eq_none_of_not_mem (m : List (String × Int)) (k : String)
    (h : k ∉ m.map Prod.fst) : mapGet m k = none := by
  induction m with
  | nil => rfl
  | cons a rest ih =>
    obtain ⟨k2, v2⟩ := a
    simp only [List.map_cons, List.mem_cons, not_or] at h
    simp [mapGet, Ne.symm h.1, ih h.2]

/-- The copy loop of `AddChange`: in the map built from `acc` by assigning every binding of
a tally with distinct keys, a key reads as in the tally when the tally has it and as in
`acc` otherwise. -/
theorem mapGet_foldl_mapSet (tally : List (String × Int)) (acc : List (String × Int))
    (k : String) (hnd : (tally.map Prod.fst).Nodup) :
    mapGet (tally.foldl (fun m kv => mapSet m kv.1 kv.2) acc) k =
      match mapGet tally k with
      | some v => some v
      | none => mapGet acc k := by
  induction tally generalizing acc with
  | nil => rfl
  | cons a rest ih =>
    obtain ⟨k0, v0⟩ := a
    rw [List.map_cons, List.nodup_cons] at hnd
    simp only [List.foldl_cons]
    rw [ih _ hnd.2]
    by_cases h : k0 = k
    · subst h
      simp [mapGet, mapGet_eq_none_of_not_mem rest k0 hnd.1, mapGet_mapSet_self]
    · simp only [mapGet, h, if_false]
      cases mapGet rest k with
      | some v => rfl
      | none => simp [mapGet_mapSet_ne _ _ _ _ (Ne.symm h)]

/-- C15: for a record whose tally is a Go map (nil, or bindings with distinct keys),
`AddChange m c` returns a non-nil map `M` with `M[m] = Changes(m) + c` in `int32`
arithmetic and, for every other key, the binding of the record's tally and nothing else;
the record is only read.  `Changes(m)` is 0 when the tally is nil or has no key `m`. -/
theorem AddChange_spec (r : DBRecord) (m : String) (c : Int)
    (hmap : ∀ tally, r.MachineChangeCount = some tally → (tally.map Prod.fst).Nodup) :
    (∃ M, r.AddChange m c = some M ∧
      mapGet M m = some (int32 (r.Changes m + c)) ∧
      ∀ k, k ≠ m → mapGet M k = ChangeCount.get r.MachineChangeCount k) ∧
    (r.MachineChangeCount = none → r.Changes m = 0) ∧
    (ChangeCount.get r.MachineChangeCount m = none → r.Changes m = 0) := by
  cases htally : r.MachineChangeCount with
  | none =>
    have hA : r.AddChange m c = some (mapSet [] m (int32 ((mapGet [] m).getD 0 + c))) := by
      simp only [DBRecord.AddChange, htally]
    refine ⟨⟨_, hA, ?_, ?_⟩, ?_, ?_⟩
    · simp [mapSet, mapGet, DBRecord.Changes, htally]
    · intro k hk
      simp [mapSet, mapGet, ChangeCount.get, hk.symm]
    · intro _; simp [DBRecord.Changes, htally]
    · intro _; simp [DBRecord.Changes, htally]
  | some tally =>
    have hnd := hmap tally htally
    have hcopy := fun k => mapGet_foldl_mapSet tally [] k hnd
    have hA : r.AddChange m c =
        some (mapSet (tally.foldl (fun m kv => mapSet m kv.1 kv.2) []) m
          (int32 ((mapGet (tally.foldl (fun m kv => mapSet m kv.1 kv.2) []) m).getD 0 + c))) := by
      simp only [DBRecord.AddChange, htally]
    refine ⟨⟨_, hA, ?_, ?_⟩, ?_, ?_⟩
    · rw [mapGet_mapSet_self, hcopy m]
      simp only [DBRecord.Changes, htally, mapGet]
      cases mapGet tally m <;> rfl
    · intro k hk
      rw [mapGet_mapSet_ne _ _ _ _ hk, hcopy k]
      simp only [ChangeCount.get, mapGet]
      cases mapGet tally k <;> rfl
    · intro h; cases h
    · intro h
      simp only [ChangeCount.get] at h
      simp [DBRecord.Changes, htally, h]

/-- C15 at a concrete record: the tally binds "A" to the largest `int32` and "B" to 3;
adding 1 for "A" wraps around, and "B" keeps its count. -/
theorem AddChange_spec_witness :
    ∃ M, ({ mkRecord "k" "v" "A" "g1" 8 1 with
            MachineChangeCount := some [("A", 2147483647), ("B", 3)] } : DBRecord).AddChange
          "A" 1 = some M ∧
      mapGet M "A" = some (-2147483648) ∧ mapGet M "B" = some 3 :=
  have h := (AddChange_spec
    { mkRecord "k" "v" "A" "g1" 8 1 with
      MachineChangeCount := some [("A", 2147483647), ("B", 3)] } "A" 1
    (by intro tally ht; cases ht; decide)).1
  match h with
  | ⟨M, hM, hA, hB⟩ => ⟨M, hM, hA, hB "B" (by decide)⟩

/-! ## Entries, cursors and the frame of `Add` and `Replace` -/

theorem updates_MachineID (row p : LogProgress) (h : row.MachineID = p.MachineID) :
    (row.updates p).MachineID = row.MachineID := by
  simp only [LogProgress.updates]
  split
  · rfl
  · exact h.symm

theorem map_updates_MachineID (rows : List LogProgress) (p : LogProgress) :
    (rows.map (fun r => if r.MachineID = p.MachineID then r.updates p else r)).map
      (fun c => c.MachineID) = rows.map (fun c => c.MachineID) := by
  rw [List.map_map]
  apply List.map_congr_left
  intro r _
  by_cases h : r.MachineID = p.MachineID
  · simp only [Function.comp, h, if_true]
    rw [updates_MachineID r p h, h]
  · simp only [Function.comp, h, if_false]

theorem upsertProgress_machines (rows : List LogProgress) (p : LogProgress) :
    (upsertProgress rows p).map (fun c => c.MachineID) =
      rows.map (fun c => c.MachineID) ++
        (if p.MachineID ∈ rows.map (fun c => c.MachineID) then [] else [p.MachineID]) := by
  have hany : rows.any (fun r => decide (r.MachineID = p.MachineID)) = true ↔
      p.MachineID ∈ rows.map (fun c => c.MachineID) := by
    simp only [List.any_eq_true, decide_eq_true_eq, List.mem_map]
  unfold upsertProgress
  by_cases h : rows.any (fun r => decide (r.MachineID = p.MachineID)) = true
  · rw [if_pos h, if_pos (hany.1 h), map_updates_MachineID, List.append_nil]
  · rw [if_neg h, if_neg (fun hc => h (hany.2 hc)), List.map_append]
    rfl

theorem filter_map_updates_other (rows : List LogProgress) (p : LogProgress) (m : String)
    (h : m ≠ p.MachineID) :
    (rows.map (fun r => if r.MachineID = p.MachineID then r.updates p else r)).filter
      (fun c => decide (c.MachineID = m)) = rows.filter (fun c => decide (c.MachineID = m)) := by
  induction rows with
  | nil => rfl
  | cons r rest ih =>
    by_cases hr : r.MachineID = p.MachineID
    · have hne : ¬ (r.updates p).MachineID = m := by
        rw [updates_MachineID r p hr, hr]; exact fun hc => h hc.symm
      have hne2 : ¬ r.MachineID = m := by rw [hr]; exact fun hc => h hc.symm
      rw [List.map_cons, if_pos hr, List.filter_cons_of_neg (by simpa using hne),
        List.filter_cons_of_neg (by simpa using hne2)]
      exact ih
    · rw [List.map_cons, if_neg hr]
      by_cases hm : r.MachineID = m
      · rw [List.filter_cons_of_pos (by simpa using hm),
          List.filter_cons_of_pos (by simpa using hm), ih]
      · rw [List.filter_cons_of_neg (by simpa using hm),
          List.filter_cons_of_neg (by simpa using hm), ih]

theorem upsertProgress_filter_other (rows : List LogProgress) (p : LogProgress) (m : String)
    (h : m ≠ p.MachineID) :
    (upsertProgress rows p).filter (fun c => decide (c.MachineID = m)) =
      rows.filter (fun c => decide (c.MachineID = m)) := by
  unfold upsertProgress
  split
  · exact filter_map_updates_other rows p m h
  · rw [List.filter_append]
    have : List.filter (fun c => decide (c.MachineID = m)) [p] = [] := by
      simp [List.filter, Ne.symm h]
    rw [this, List.append_nil]

theorem call_ok_records (s : SqliteAdapter) (c : Call) (h : (s.call c).1 = none) :
    ∃ kept, kept.Sublist s.records ∧ (s.call c).2.records = kept ++ [c.entry] := by
  cases c with
  | add e =>
    simp only [SqliteAdapter.call, Call.entry] at h ⊢
    cases hh : s.Has e.CurrentLogGid with
    | true => rw [Add_of_Has s e hh] at h; cases h
    | false => rw [Add_of_not_Has s e hh]; exact ⟨s.records, List.Sublist.refl _, rfl⟩
  | replace old new_ =>
    simp only [SqliteAdapter.call, Call.entry] at h ⊢
    cases hh : s.Has old with
    | false => rw [Replace_of_not_Has_old s old new_ hh] at h; cases h
    | true =>
      cases h2 : s.Has new_.CurrentLogGid with
      | true => rw [Replace_of_Has_new s old new_ hh h2] at h; cases h
      | false =>
        rw [Replace_of_Has_old_not_new s old new_ hh h2]
        exact ⟨_, List.filter_sublist _, rfl⟩

theorem call_cursor_invariant (s : SqliteAdapter) (c : Call)
    (h1 : ∀ r ∈ s.records, r.MachineID ∈ s.progress.map (fun c => c.MachineID))
    (h2 : (s.progress.map (fun c => c.MachineID)).Nodup) :
    (∀ r ∈ (s.call c).2.records,
      r.MachineID ∈ (s.call c).2.progress.map (fun c => c.MachineID)) ∧
    ((s.call c).2.progress.map (fun c => c.MachineID)).Nodup := by
  by_cases herr : (s.call c).1 = none
  · obtain ⟨kept, hsub, hrec⟩ := call_ok_records s c herr
    rw [hrec, call_ok_progress s c herr, upsertProgress_machines]
    by_cases hin : (cursorFor c.entry).MachineID ∈ s.progress.map (fun c => c.MachineID)
    · rw [if_pos hin, List.append_nil]
      refine ⟨?_, h2⟩
      intro r hr
      rcases List.mem_append.1 hr with hr | hr
      · exact h1 r (hsub.subset hr)
      · rw [List.mem_singleton.1 hr]; exact hin
    · rw [if_neg hin]
      constructor
      · intro r hr
        rcases List.mem_append.1 hr with hr | hr
        · exact List.mem_append_left _ (h1 r (hsub.subset hr))
        · rw [List.mem_singleton.1 hr]
          exact List.mem_append_right _ (List.mem_singleton.2 rfl)
      · rw [List.nodup_append]
        refine ⟨h2, List.nodup_singleton _, ?_⟩
        intro a ha ha2
        rw [List.mem_singleton.1 ha2] at ha
        exact hin ha
  · rw [call_error_unchanged s c herr]
    exact ⟨h1, h2⟩

theorem run_cursor_invariant (calls : List Call) (s : SqliteAdapter)
    (h1 : ∀ r ∈ s.records, r.MachineID ∈ s.progress.map (fun c => c.MachineID))
    (h2 : (s.progress.map (fun c => c.MachineID)).Nodup) :
    (∀ r ∈ (s.run calls).records,
      r.MachineID ∈ (s.run calls).progress.map (fun c => c.MachineID)) ∧
    ((s.run calls).progress.map (fun c => c.MachineID)).Nodup := by
  induction calls generalizing s with
  | nil => exact ⟨h1, h2⟩
  | cons c rest ih =>
    obtain ⟨h3, h4⟩ := call_cursor_invariant s c h1 h2
    exact ih _ h3 h4

/-- C17: in every store reached from the empty store by a sequence of `Add` and `Replace`
calls, the machine of every stored entry has a cursor in the cursor table, and the cursor
table holds at most one cursor for each machine id. -/
theorem entry_has_cursor_reachable (calls : List Call) :
    (∀ r ∈ (SqliteAdapter.empty.run calls).AllNodes,
      ∃ c ∈ (SqliteAdapter.empty.run calls).Processes, c.MachineID = r.MachineID) ∧
    ((SqliteAdapter.empty.run calls).Processes.map (fun c => c.MachineID)).Nodup := by
  obtain ⟨h1, h2⟩ := run_cursor_invariant calls SqliteAdapter.empty
    (by simp [SqliteAdapter.empty]) (by simp [SqliteAdapter.empty])
  refine ⟨?_, h2⟩
  intro r hr
  obtain ⟨c, hc, hcm⟩ := List.mem_map.1 (h1 r hr)
  exact ⟨c, hc, hcm⟩

/-- C18: a successful `Add e` keeps every stored entry and appends `e`; a successful
`Replace old new` keeps every stored entry whose gid is not `old` and appends `new`; in
both cases the cursors of every machine other than the admitted entry's are unchanged. -/
theorem Add_Replace_frame (s : SqliteAdapter) :
    (∀ e : DBRecord, (s.Add e).1 = none →
      (s.Add e).2.AllNodes = s.AllNodes ++ [e] ∧
      ∀ m, m ≠ e.MachineID → (s.Add e).2.cursorsOf m = s.cursorsOf m) ∧
    (∀ (old : String) (new_ : DBRecord), (s.Replace old new_).1 = none →
      (s.Replace old new_).2.AllNodes =
        s.AllNodes.filter (fun r => decide (r.CurrentLogGid ≠ old)) ++ [new_] ∧
      ∀ m, m ≠ new_.MachineID → (s.Replace old new_).2.cursorsOf m = s.cursorsOf m) := by
  constructor
  · intro e h
    have hp := call_ok_progress s (Call.add e) h
    simp only [SqliteAdapter.call, Call.entry] at hp
    constructor
    · cases hh : s.Has e.CurrentLogGid with
      | true => rw [Add_of_Has s e hh] at h; cases h
      | false => rw [Add_of_not_Has s e hh]; rfl
    · intro m hm
      simp only [SqliteAdapter.cursorsOf, SqliteAdapter.Processes]
      rw [hp]
      exact upsertProgress_filter_other _ _ _ hm
  · intro old new_ h
    have hp := call_ok_progress s (Call.replace old new_) h
    simp only [SqliteAdapter.call, Call.entry] at hp
    constructor
    · cases hh : s.Has old with
      | false => rw [Replace_of_not_Has_old s old new_ hh] at h; cases h
      | true =>
        cases h2 : s.Has new_.CurrentLogGid with
        | true => rw [Replace_of_Has_new s old new_ hh h2] at h; cases h
        | false =>
          rw [Replace_of_Has_old_not_new s old new_ hh h2]
          simp [SqliteAdapter.AllNodes]
    · intro m hm
      simp only [SqliteAdapter.cursorsOf, SqliteAdapter.Processes]
      rw [hp]
      exact upsertProgress_filter_other _ _ _ hm

/-- C18 at a concrete store: machine "A" replaces its head "g1" next to the head "g0" of
machine "B"; the entry and the cursor of "B" stay as they were. -/
theorem Add_Replace_frame_witness :
    ((SqliteAdapter.mk [mkRecord "k" "vB" "B" "g0" 8 1, mkRecord "k" "v1" "A" "g1" 8 1]
        [⟨8, 1, "g0", "B"⟩, ⟨8, 1, "g1", "A"⟩]).Replace "g1"
      (mkRecord "k" "v2" "A" "g2" 16 2)).2.AllNodes =
      [mkRecord "k" "vB" "B" "g0" 8 1, mkRecord "k" "v1" "A" "g1" 8 1].filter
        (fun r => decide (r.CurrentLogGid ≠ "g1")) ++ [mkRecord "k" "v2" "A" "g2" 16 2] :=
  ((Add_Replace_frame
    (SqliteAdapter.mk [mkRecord "k" "vB" "B" "g0" 8 1, mkRecord "k" "v1" "A" "g1" 8 1]
      [⟨8, 1, "g0", "B"⟩, ⟨8, 1, "g1", "A"⟩])).2 "g1" (mkRecord "k" "v2" "A" "g2" 16 2)
    (by decide)).1

/-- C17 at a concrete history: after `Add` of an entry of "A" and `Replace` of it, the
stored entry has a cursor. -/
theorem entry_has_cursor_reachable_witness :
    ∃ c ∈ (SqliteAdapter.empty.run [Call.add (mkRecord "k" "v1" "A" "g1" 8 1),
        Call.replace "g1" (mkRecord "k" "v2" "A" "g2" 16 2)]).Processes,
      c.MachineID = (mkRecord "k" "v2" "A" "g2" 16 2).MachineID :=
  (entry_has_cursor_reachable [Call.add (mkRecord "k" "v1" "A" "g1" 8 1),
    Call.replace "g1" (mkRecord "k" "v2" "A" "g2" 16 2)]).1 _ (by decide)

/-! ## Safety of the accessors after a read -/

theorem String_eq_none_imp (v : Value) (hne : v.versions ≠ []) (h : v.String = none) :
    v.Main = some none := by
  obtain ⟨vs⟩ := v
  cases vs with
  | nil => exact absurd rfl hne
  | cons a rest =>
    cases a with
    | none => rfl
    | some main => simp [Value.String, Value.Main, Value.Branches] at h

/-- C19: when `Value.from` returns no error, `versions` is non-empty afterwards, so `Main()`
and `Branches()` do not panic and `String()` does not index out of range (it can only
fail on a nil pointer at index 0, which `from` never stores and which cannot occur when the
`Value` was empty before); when `Value.from` returns an error, the `Value` is left exactly
as it was. -/
theorem from_accessors_safe (v : Value) (leaves : List (Option DBRecord)) (m : String) :
    ((v.from_ leaves m).1 = none →
      (v.from_ leaves m).2.versions ≠ [] ∧
      (v.from_ leaves m).2.Main ≠ none ∧
      (v.from_ leaves m).2.Branches ≠ none ∧
      ((v.from_ leaves m).2.String = none → (v.from_ leaves m).2.Main = some none) ∧
      (v.versions = [] → (v.from_ leaves m).2.String ≠ none)) ∧
    ((v.from_ leaves m).1 ≠ none → (v.from_ leaves m).2 = v) := by
  cases hfm : findMain leaves m with
  | none => simp [Value.from_, hfm]
  | some main =>
    rw [from_versions_of_findMain v leaves m main hfm]
    refine ⟨fun _ => ?_, fun h => absurd rfl h⟩
    have hne : v.versions ++
        (some { key := main.Key, value := main.Value, machineID := main.MachineID,
                gid := main.CurrentLogGid, seq := 0 } ::
          (branchVersions 1 (otherLeaves main.CurrentLogGid leaves)).map some) ≠ [] := by
      simp
    refine ⟨hne, ?_, ?_, fun h => String_eq_none_imp _ hne h, ?_⟩
    · cases hv : v.versions <;> simp [Value.Main]
    · cases hv : v.versions <;> simp [Value.Branches]
    · intro hv
      simp [hv, Value.String, Value.Main, Value.Branches]

/-- C19 at a concrete input: a successful read into an empty `Value`. -/
theorem from_accessors_safe_witness :
    (Value.from_ { versions := [] } [some (mkRecord "k" "vA" "A" "g1" 8 1)] "A").2.versions ≠ [] ∧
    (Value.from_ { versions := [] } [some (mkRecord "k" "vA" "A" "g1" 8 1)] "B").2 =
      { versions := [] } :=
  ⟨((from_accessors_safe { versions := [] } [some (mkRecord "k" "vA" "A" "g1" 8 1)] "A").1
      (by decide)).1,
   (from_accessors_safe { versions := [] } [some (mkRecord "k" "vA" "A" "g1" 8 1)] "B").2
      (by decide)⟩

/-! ## The stored form of the change tally -/

/-- C16 fails for a key that is not valid UTF-8: for the non-nil tally binding the
one-byte key 0xFF to 1, `Value()` succeeds with the twelve bytes of the object whose key
is the six-character escape of U+FFFD and whose value is 1 (the invalid byte is written
as that escape), and `Scan` of these bytes into an empty `ChangeCount` (nil or empty map)
succeeds with a map whose only key is the three bytes EF BF BD of U+FFFD: the key 0xFF
is gone.  A tally with the keys "A" and "B" comes back unchanged. -/
theorem Scan_Value_invalid_utf8_key :
    ChangeCountBytes.Value (some [([0xFF], 1)]) =
      (DriverValue.bytes
        [0x7B, 0x22, 0x5C, 0x75, 0x66, 0x66, 0x66, 0x64, 0x22, 0x3A, 0x31, 0x7D], none) ∧
    ChangeCountBytes.Scan none (ChangeCountBytes.Value (some [([0xFF], 1)])).1 =
      (none, some [([0xEF, 0xBF, 0xBD], 1)]) ∧
    ChangeCountBytes.Scan (some []) (ChangeCountBytes.Value (some [([0xFF], 1)])).1 =
      (none, some [([0xEF, 0xBF, 0xBD], 1)]) ∧
    mapGetBytes [([0xEF, 0xBF, 0xBD], 1)] [0xFF] = none ∧
    ChangeCountBytes.Scan none
        (ChangeCountBytes.Value (ChangeCount.toBytes (some [("B", -3), ("A", 2)]))).1 =
      (none, some [([0x41], 2), ([0x42], -3)]) :=
  ⟨by decide, by decide, by decide, by decide, by decide⟩

end storage
